import Mathlib

/-!
Verification of the native-messaging host in
src/native-host/twitch_ad_muter_host.py.

The development shallowly embeds the framing protocol and the command loop:
byte streams are lists of natural numbers below 256, the JSON data model is
an inductive type, and the Python functions read_message, write_message,
process_command and main are translated into executable Lean functions.
Recursive traversals of the nested Json type carry an explicit fuel
argument so that every definition stays structurally recursive and
kernel-computable; the predicate jfits states that the fuel suffices.

Modelling notes, recorded where they matter:
  - JSON floating point numbers are outside the model; the payloads the
    claims quantify over contain only objects, arrays, strings, integers,
    booleans and null, exactly the shapes the host manipulates.
  - The Python exception texts appended by str(e) for UnicodeDecodeError
    and json.JSONDecodeError are abstracted to the fixed prefixes the host
    itself writes ("Invalid UTF-8 encoding", "Invalid JSON"); no claim
    depends on the suffix produced by the Python runtime.
-/

set_option maxHeartbeats 1000000
set_option maxRecDepth 2000

/-- Characters of a string, the representation used throughout the model. -/
def strL (s : String) : List Char := s.data

/-! ## The JSON data model (the values json.loads can hand to the host) -/

inductive Json where
  | null
  | bool (b : Bool)
  | int (n : Int)
  | str (s : List Char)
  | arr (xs : List Json)
  | obj (fields : List (List Char × Json))

/-- Fuel sufficiency for the fueled traversals of Json below. -/
def jfits : Nat → Json → Bool
  | 0, _ => false
  | _ + 1, .null => true
  | _ + 1, .bool _ => true
  | _ + 1, .int _ => true
  | _ + 1, .str _ => true
  | f + 1, .arr xs => xs.all (jfits f)
  | f + 1, .obj fs => fs.all (fun p => jfits f p.2)

/-- Keys of an association list (a decoded JSON object). -/
def objKeys (fs : List (List Char × Json)) : List (List Char) := fs.map Prod.fst

/-- Distinctness of the keys of one object level, as Python dicts guarantee. -/
def keysDistinct : List (List Char × Json) → Bool
  | [] => true
  | p :: rest => rest.all (fun q => ¬ q.1 = p.1) && keysDistinct rest

/-- Well-formedness: the fuel suffices and every object has distinct keys,
the invariant every value produced by the Python json module satisfies. -/
def jwf : Nat → Json → Bool
  | 0, _ => false
  | _ + 1, .null => true
  | _ + 1, .bool _ => true
  | _ + 1, .int _ => true
  | _ + 1, .str _ => true
  | f + 1, .arr xs => xs.all (jwf f)
  | f + 1, .obj fs => keysDistinct fs && fs.all (fun p => jwf f p.2)

/-- Python dict.get: the first binding of the key, if any. -/
def Json.get : Json → List Char → Option Json
  | .obj fs, k => (fs.find? (fun p => p.1 = k)).map Prod.snd
  | _, _ => none

/-- Python truthiness of a decoded JSON value: None, False, 0, the empty
string, the empty list and the empty dict are falsy. -/
def jsonFalsy : Json → Bool
  | .null => true
  | .bool b => !b
  | .int n => n == 0
  | .str s => s.isEmpty
  | .arr xs => xs.isEmpty
  | .obj fs => fs.isEmpty

/-! ## json.dumps (default options: ensure_ascii, separators ", " and ": ") -/

/-- Decimal digits of a natural number, most significant first; the fuel
argument keeps the recursion structural and any fuel above n is enough. -/
def natDigits : Nat → Nat → List Char
  | 0, _ => []
  | f + 1, n =>
    if n < 10 then [Char.ofNat (48 + n)]
    else natDigits f (n / 10) ++ [Char.ofNat (48 + n % 10)]

/-- Decimal rendering of an integer, as Python str and json.dumps print it. -/
def intChars (n : Int) : List Char :=
  if n < 0 then '-' :: natDigits (n.natAbs + 1) n.natAbs
  else natDigits (n.toNat + 1) n.toNat

/-- Lowercase hexadecimal digit, for the \uXXXX escapes of json.dumps. -/
def hexChar (d : Nat) : Char :=
  if d < 10 then Char.ofNat (48 + d) else Char.ofNat (87 + d)

/-- Four lowercase hexadecimal digits of a number below 0x10000. -/
def hex4 (n : Nat) : List Char :=
  [hexChar (n / 4096 % 16), hexChar (n / 256 % 16), hexChar (n / 16 % 16), hexChar (n % 16)]

/-- The escaping json.dumps applies per character with ensure_ascii=True:
quote, backslash and the short control escapes, \u00xx for the remaining
control characters, printable ASCII kept literal, and every character above
0x7E written as \uXXXX, using a surrogate pair beyond 0xFFFF. -/
def escapeChar (c : Char) : List Char :=
  if c = '"' then ['\\', '"']
  else if c = '\\' then ['\\', '\\']
  else if c = Char.ofNat 8 then ['\\', 'b']
  else if c = Char.ofNat 9 then ['\\', 't']
  else if c = Char.ofNat 10 then ['\\', 'n']
  else if c = Char.ofNat 12 then ['\\', 'f']
  else if c = Char.ofNat 13 then ['\\', 'r']
  else if c.toNat < 0x20 then '\\' :: 'u' :: hex4 c.toNat
  else if c.toNat ≤ 0x7E then [c]
  else if c.toNat ≤ 0xFFFF then '\\' :: 'u' :: hex4 c.toNat
  else
    '\\' :: 'u' :: hex4 (0xD800 + (c.toNat - 0x10000) / 0x400) ++
      ('\\' :: 'u' :: hex4 (0xDC00 + (c.toNat - 0x10000) % 0x400))

/-- Escaped body of a JSON string literal. -/
def escapeList (s : List Char) : List Char := s.flatMap escapeChar

/-- Comma-space interleaving used by json.dumps between items. -/
def commaJoin : List (List Char) → List Char
  | [] => []
  | [x] => x
  | x :: y :: rest => x ++ ',' :: ' ' :: commaJoin (y :: rest)

/-- json.dumps with the default options, producing the character sequence
the host writes; fueled on the depth of the value. -/
def dumpsF : Nat → Json → List Char
  | 0, _ => []
  | _ + 1, .null => strL "null"
  | _ + 1, .bool true => strL "true"
  | _ + 1, .bool false => strL "false"
  | _ + 1, .int n => intChars n
  | _ + 1, .str s => '"' :: escapeList s ++ ['"']
  | f + 1, .arr xs => '[' :: commaJoin (xs.map (dumpsF f)) ++ [']']
  | f + 1, .obj fs =>
      '\x7b' :: commaJoin (fs.map (fun p =>
        '"' :: escapeList p.1 ++ '"' :: ':' :: ' ' :: dumpsF f p.2)) ++ ['\x7d']

/-! ## UTF-8 (the strict codec str.encode and bytes.decode apply) -/

/-- UTF-8 encoding of one unicode scalar value. -/
def utf8Char (c : Char) : List Nat :=
  let n := c.toNat
  if n < 0x80 then [n]
  else if n < 0x800 then [0xC0 + n / 64, 0x80 + n % 64]
  else if n < 0x10000 then [0xE0 + n / 4096, 0x80 + n / 64 % 64, 0x80 + n % 64]
  else [0xF0 + n / 262144, 0x80 + n / 4096 % 64, 0x80 + n / 64 % 64, 0x80 + n % 64]

/-- UTF-8 encoding of a character sequence, the bytes put on the wire. -/
def utf8Encode (s : List Char) : List Nat := s.flatMap utf8Char

/-- Continuation byte test. -/
def isCont (b : Nat) : Bool := 0x80 ≤ b && b ≤ 0xBF

/-- One UTF-8 sequence from the front of the byte stream, strictly as
bytes.decode("utf-8") scans it: overlong encodings, surrogates, values
above 0x10FFFF and torn sequences are rejected. -/
def utf8DecodeOne : List Nat → Option (Char × List Nat)
  | [] => none
  | b :: bs =>
    if b < 0x80 then some (Char.ofNat b, bs)
    else if b < 0xC2 then none
    else if b < 0xE0 then
      match bs with
      | b1 :: bs1 =>
        if isCont b1 then some (Char.ofNat ((b - 0xC0) * 64 + (b1 - 0x80)), bs1)
        else none
      | _ => none
    else if b < 0xF0 then
      match bs with
      | b1 :: b2 :: bs2 =>
        let n := (b - 0xE0) * 4096 + (b1 - 0x80) * 64 + (b2 - 0x80)
        if isCont b1 && isCont b2 && decide (0x800 ≤ n) &&
            !(decide (0xD800 ≤ n) && decide (n ≤ 0xDFFF)) then
          some (Char.ofNat n, bs2)
        else none
      | _ => none
    else if b < 0xF5 then
      match bs with
      | b1 :: b2 :: b3 :: bs3 =>
        let n := (b - 0xF0) * 262144 + (b1 - 0x80) * 4096 + (b2 - 0x80) * 64 + (b3 - 0x80)
        if isCont b1 && isCont b2 && isCont b3 && decide (0x10000 ≤ n) &&
            decide (n ≤ 0x10FFFF) then
          some (Char.ofNat n, bs3)
        else none
      | _ => none
    else none

/-- Strict UTF-8 decoding of the whole byte sequence; fueled on the input
length, which always suffices because every sequence consumes at least one
byte. -/
def utf8DecodeF : Nat → List Nat → Option (List Char)
  | _, [] => some []
  | 0, _ :: _ => none
  | f + 1, b :: bs =>
    match utf8DecodeOne (b :: bs) with
    | some (c, rest) => (utf8DecodeF f rest).map (fun cs => c :: cs)
    | none => none

/-- bytes.decode("utf-8") with strict error handling. -/
def utf8Decode (bs : List Nat) : Option (List Char) :=
  utf8DecodeF bs.length bs

/-! ## The 4-byte little-endian length prefix (struct.pack / struct.unpack "<I") -/

/-- struct.pack "<I": little-endian bytes of a length below 2^32. -/
def packLE (n : Nat) : List Nat :=
  [n % 256, n / 256 % 256, n / 65536 % 256, n / 16777216 % 256]

/-- struct.unpack "<I" applied to four bytes. -/
def unpackLE (b0 b1 b2 b3 : Nat) : Nat :=
  b0 + 256 * b1 + 65536 * b2 + 16777216 * b3

/-! ## json.loads, restricted to the non-float grammar (recursive descent;
the parser fuel is drawn from the input length, which always suffices
because every nesting level consumes at least one character) -/

/-- Whitespace skipping of the json scanner. -/
def skipWs : List Char → List Char
  | c :: cs => if c = ' ' ∨ c = Char.ofNat 9 ∨ c = Char.ofNat 10 ∨ c = Char.ofNat 13
      then skipWs cs else c :: cs
  | [] => []

/-- Value of one hexadecimal digit, both cases accepted. -/
def hexVal (c : Char) : Option Nat :=
  let n := c.toNat
  if 48 ≤ n ∧ n ≤ 57 then some (n - 48)
  else if 97 ≤ n ∧ n ≤ 102 then some (n - 87)
  else if 65 ≤ n ∧ n ≤ 70 then some (n - 55)
  else none

/-- Four hexadecimal digits after a \u, both cases accepted. -/
def parseHex4 : List Char → Option (Nat × List Char)
  | h1 :: h2 :: h3 :: h4 :: r =>
    match hexVal h1, hexVal h2, hexVal h3, hexVal h4 with
    | some d1, some d2, some d3, some d4 => some (d1 * 4096 + d2 * 256 + d3 * 16 + d4, r)
    | _, _, _, _ => none
  | _ => none

/-- One backslash escape (the backslash already consumed): the short
escapes and \uXXXX, with a surrogate pair recombined into one character.
Python would admit a lone surrogate escape, producing a code unit no Lean
Char can carry; such inputs are rejected here and never arise from dumps
output. -/
def parseEscape : List Char → Option (Char × List Char)
  | [] => none
  | e :: r =>
    if e = '"' then some ('"', r)
    else if e = '\\' then some ('\\', r)
    else if e = '/' then some ('/', r)
    else if e = 'b' then some (Char.ofNat 8, r)
    else if e = 'f' then some (Char.ofNat 12, r)
    else if e = 'n' then some (Char.ofNat 10, r)
    else if e = 'r' then some (Char.ofNat 13, r)
    else if e = 't' then some (Char.ofNat 9, r)
    else if e = 'u' then
      match parseHex4 r with
      | some (v, r1) =>
        if 0xD800 ≤ v ∧ v ≤ 0xDBFF then
          match r1 with
          | a :: b :: r2 =>
            if a = '\\' ∧ b = 'u' then
              match parseHex4 r2 with
              | some (w, r3) =>
                if 0xDC00 ≤ w ∧ w ≤ 0xDFFF then
                  some (Char.ofNat (0x10000 + (v - 0xD800) * 1024 + (w - 0xDC00)), r3)
                else none
              | none => none
            else none
          | _ => none
        else if 0xDC00 ≤ v ∧ v ≤ 0xDFFF then none
        else some (Char.ofNat v, r1)
      | none => none
    else none

/-- Body of a JSON string literal after the opening quote: literal
characters above 0x1F and backslash escapes, up to the closing quote.
Fueled on the remaining input length, which always suffices because every
step consumes at least one character. -/
def parseStringBodyF : Nat → List Char → Option (List Char × List Char)
  | 0, _ => none
  | fuel + 1, s =>
    match s with
    | [] => none
    | c :: cs =>
      if c = '"' then some ([], cs)
      else if c = '\\' then
        match parseEscape cs with
        | some (u, r) => (parseStringBodyF fuel r).map (fun p => (u :: p.1, p.2))
        | none => none
      else if c.toNat < 0x20 then none
      else (parseStringBodyF fuel cs).map (fun p => (c :: p.1, p.2))

/-- String-literal body with the fuel drawn from the input. -/
def parseStringBody (s : List Char) : Option (List Char × List Char) :=
  parseStringBodyF (s.length + 1) s

/-- Greedy decimal digit scan, accumulating the value. -/
def parseDigits (acc : Nat) : List Char → Nat × List Char
  | c :: cs =>
    if 48 ≤ c.toNat ∧ c.toNat ≤ 57 then parseDigits (acc * 10 + (c.toNat - 48)) cs
    else (acc, c :: cs)
  | [] => (acc, [])

/-- The integer part of the json number grammar, 0 or [1-9][0-9]*; a zero
followed by more digits stops after the zero exactly as the scanner regex
does.  Fractions and exponents (floats) are outside the model. -/
def parseNat : List Char → Option (Nat × List Char)
  | [] => none
  | c :: rest =>
    if c = '0' then some (0, rest)
    else if 49 ≤ c.toNat ∧ c.toNat ≤ 57 then some (parseDigits (c.toNat - 48) rest)
    else none

/-- Python dict insertion d[k] = v on the association-list model: a
repeated key overwrites in place, a fresh key appends. -/
def insertUpdate (fs : List (List Char × Json)) (k : List Char) (v : Json) :
    List (List Char × Json) :=
  if fs.any (fun p => p.1 = k) then
    fs.map (fun p => if p.1 = k then (k, v) else p)
  else fs ++ [(k, v)]

/-- Comma-separated array items after the first has been reached; pv parses
one value, and the item fuel (always at least the item count, being drawn
from the input length) bounds the iteration structurally. -/
def parseItems (pv : List Char → Option (Json × List Char)) :
    Nat → List Char → Option (List Json × List Char)
  | 0, _ => none
  | fuel + 1, s =>
    match pv s with
    | some (v, r) =>
      match skipWs r with
      | [] => none
      | c :: r2 =>
        if c = ',' then (parseItems pv fuel (skipWs r2)).map (fun p => (v :: p.1, p.2))
        else if c = ']' then some ([v], r2)
        else none
    | none => none

/-- Comma-separated object members after the first has been reached:
string key, colon, value. -/
def parseFields (pv : List Char → Option (Json × List Char)) :
    Nat → List Char → Option (List (List Char × Json) × List Char)
  | 0, _ => none
  | fuel + 1, s =>
    match s with
    | [] => none
    | c0 :: r =>
      if c0 = '"' then
        match parseStringBody r with
        | some (k, r1) =>
          match skipWs r1 with
          | [] => none
          | c1 :: r2 =>
            if c1 = ':' then
              match pv (skipWs r2) with
              | some (v, r3) =>
                match skipWs r3 with
                | [] => none
                | c2 :: r4 =>
                  if c2 = ',' then
                    (parseFields pv fuel (skipWs r4)).map (fun p => ((k, v) :: p.1, p.2))
                  else if c2 = '\x7d' then some ([(k, v)], r4)
                  else none
              | none => none
            else none
        | none => none
      else none

/-- One json value: the literals, strings, integers, arrays and objects.
The nesting fuel decreases at each level; the float grammar and the NaN
and Infinity extensions of the Python scanner are outside the model. -/
def parseVal : Nat → List Char → Option (Json × List Char)
  | 0, _ => none
  | fuel + 1, s =>
    match skipWs s with
    | [] => none
    | c :: r =>
      if c = 'n' then
        match r with
        | 'u' :: 'l' :: 'l' :: r1 => some (.null, r1)
        | _ => none
      else if c = 't' then
        match r with
        | 'r' :: 'u' :: 'e' :: r1 => some (.bool true, r1)
        | _ => none
      else if c = 'f' then
        match r with
        | 'a' :: 'l' :: 's' :: 'e' :: r1 => some (.bool false, r1)
        | _ => none
      else if c = '"' then (parseStringBody r).map (fun p => (.str p.1, p.2))
      else if c = '-' then (parseNat r).map (fun p => (.int (-(p.1 : Int)), p.2))
      else if c = '[' then
        match skipWs r with
        | [] => none
        | c1 :: r1 =>
          if c1 = ']' then some (.arr [], r1)
          else
            (parseItems (parseVal fuel) ((c1 :: r1).length + 1) (c1 :: r1)).map
              (fun p => (.arr p.1, p.2))
      else if c = '\x7b' then
        match skipWs r with
        | [] => none
        | c1 :: r1 =>
          if c1 = '\x7d' then some (.obj [], r1)
          else
            (parseFields (parseVal fuel) ((c1 :: r1).length + 1) (c1 :: r1)).map (fun p =>
              (.obj (p.1.foldl (fun acc kv => insertUpdate acc kv.1 kv.2) []), p.2))
      else (parseNat (c :: r)).map (fun p => (.int (p.1 : Int), p.2))

/-- json.loads: parse one value and require only whitespace to follow. -/
def loads (s : List Char) : Option Json :=
  match parseVal (s.length + 1) s with
  | some (v, rest) => if skipWs rest = [] then some v else none
  | none => none

/-! ## read_message (decode one frame from the input stream)

The input stream is the list of bytes still unread on stdin; the result
carries the outcome together with the stream left after the reads the
Python code performs (read(4) consumes up to four bytes, read(n) up to n). -/

inductive ReadResult where
  | endOfInput
  | readError (msg : List Char)
  | ok (j : Json)

/-- read_message of the host: the 4-byte little-endian length prefix, the
1 MiB bound, the exact payload read, UTF-8 decoding and JSON parsing, with
the error texts the source formats. -/
def read_message (input : List Nat) : ReadResult × List Nat :=
  match input with
  | [] => (.endOfInput, [])
  | [_] => (.readError (strL "Invalid length prefix: expected 4 bytes, got 1"), [])
  | [_, _] => (.readError (strL "Invalid length prefix: expected 4 bytes, got 2"), [])
  | [_, _, _] => (.readError (strL "Invalid length prefix: expected 4 bytes, got 3"), [])
  | b0 :: b1 :: b2 :: b3 :: rest =>
    let n := unpackLE b0 b1 b2 b3
    if n > 1048576 then
      (.readError (strL "Message too large: " ++ strL (toString n) ++ strL " bytes"), rest)
    else
      let payload := rest.take n
      if payload.length ≠ n then
        (.readError (strL "Incomplete message: expected " ++ strL (toString n) ++
          strL " bytes, got " ++ strL (toString payload.length)), rest.drop n)
      else
        match utf8Decode payload with
        | none => (.readError (strL "Invalid UTF-8 encoding"), rest.drop n)
        | some chars =>
          match loads chars with
          | none => (.readError (strL "Invalid JSON"), rest.drop n)
          | some j => (.ok j, rest.drop n)

/-! ## The response shapes (send_success_response and friends) -/

/-- Success response sent after a successful mute or unmute. -/
def successResp : Json := .obj [(strL "success", .bool true)]

/-- Error response carrying a description. -/
def errorResp (msg : List Char) : Json :=
  .obj [(strL "success", .bool false), (strL "error", .str msg)]

/-- Status response carrying the queried mute state. -/
def statusResp (muted : Bool) : Json := .obj [(strL "muted", .bool muted)]

/-! ## The AudioController collaborator

The spec treats the audio calls as an external collaborator returning
(ok, error) tuples, possibly raising.  The model draws one outcome per
collaborator call from an oracle indexed by the number of calls made so
far; a raise outcome is an unexpected exception escaping the call. -/

inductive CtrlOutcome where
  | success (muted : Bool)
  | failure (error : Option (List Char))
  | raise (msg : List Char)

/-- Whether an outcome is an unexpected exception. -/
def CtrlOutcome.isRaise : CtrlOutcome → Bool
  | .raise _ => true
  | _ => false

/-- Python `error or fallback`: the fallback replaces a missing or falsy
(empty) error text. -/
def pyOr (e : Option (List Char)) (fallback : List Char) : List Char :=
  match e with
  | some s => if s = [] then fallback else s
  | none => fallback

/-! ## Rendering of a command value inside f"Unknown command: ..."

Python formats the value with str(); for a string that is the string
itself, the case every claim quantifies over.  Containers are rendered
through repr; the rendering below keeps every character at or above 0x20
literal where the Python repr would escape the non-printable ones, a
difference no claim touches since none constrains container rendering. -/

def reprEscapeChar (c : Char) : List Char :=
  if c = '\\' then ['\\', '\\']
  else if c = '\x27' then ['\\', '\x27']
  else if c = Char.ofNat 9 then ['\\', 't']
  else if c = Char.ofNat 10 then ['\\', 'n']
  else if c = Char.ofNat 13 then ['\\', 'r']
  else [c]

def pyRepr : Json → List Char
  | .null => strL "None"
  | .bool true => strL "True"
  | .bool false => strL "False"
  | .int n => intChars n
  | .str s => '\x27' :: s.flatMap reprEscapeChar ++ ['\x27']
  | .arr xs => '[' :: commaJoin (xs.attach.map (fun x => pyRepr x.1)) ++ [']']
  | .obj fs => '\x7b' :: commaJoin (fs.attach.map (fun p =>
      ('\x27' :: p.1.1.flatMap reprEscapeChar ++ ['\x27']) ++ ':' :: ' ' :: pyRepr p.1.2)) ++ ['\x7d']
decreasing_by
  · have := List.sizeOf_lt_of_mem x.2
    simp only [Json.arr.sizeOf_spec]
    omega
  · have h1 := List.sizeOf_lt_of_mem p.2
    have h2 : sizeOf p.1.2 < sizeOf p.1 := by
      obtain ⟨k, v⟩ := p.1
      simp only [Prod.mk.sizeOf_spec]
      omega
    simp only [Json.obj.sizeOf_spec]
    omega

/-- Python str() applied inside the f-string: strings print bare, every
other value prints as its repr. -/
def pyStr : Json → List Char
  | .str s => s
  | v => pyRepr v

/-! ## process_command (validate and dispatch one decoded message) -/

/-- Outcome of one process_command call: the responses passed to
write_message in order, the exception escaping the call if a collaborator
raised, and the next oracle index. -/
structure DispatchOut where
  sent : List Json
  exn : Option (List Char)
  idx : Nat

/-- Dispatch of one audio call shared by mute and unmute. -/
def dispatchToggle (orc : Nat → CtrlOutcome) (i : Nat) (fallback : List Char) : DispatchOut :=
  match orc i with
  | .raise m => ⟨[], some m, i + 1⟩
  | .success _ => ⟨[successResp], none, i + 1⟩
  | .failure e => ⟨[errorResp (pyOr e fallback)], none, i + 1⟩

/-- process_command of the host: shape validation, the falsy command
check, exact string dispatch and the unknown-command fallback. -/
def process_command (message : Json) (orc : Nat → CtrlOutcome) (i : Nat) : DispatchOut :=
  match message with
  | .obj fields =>
    match (Json.obj fields).get (strL "command") with
    | none => ⟨[errorResp (strL "No command specified")], none, i⟩
    | some cmd =>
      if jsonFalsy cmd then ⟨[errorResp (strL "No command specified")], none, i⟩
      else
        match cmd with
        | .str s =>
          if s = strL "mute" then dispatchToggle orc i (strL "Failed to mute")
          else if s = strL "unmute" then dispatchToggle orc i (strL "Failed to unmute")
          else if s = strL "getStatus" then
            match orc i with
            | .raise m => ⟨[], some m, i + 1⟩
            | .success muted => ⟨[statusResp muted], none, i + 1⟩
            | .failure e => ⟨[errorResp (pyOr e (strL "Failed to get status"))], none, i + 1⟩
          else ⟨[errorResp (strL "Unknown command: " ++ s)], none, i⟩
        | v => ⟨[errorResp (strL "Unknown command: " ++ pyStr v)], none, i⟩
  | _ => ⟨[errorResp (strL "Invalid message format")], none, i⟩

/-! ## write_message (encode one response onto stdout)

The body of write_message runs inside try/except: serialization, the
struct.pack range check, the two buffer writes and the flush.  The stream
condition records which of those steps would raise; the attempt returns
the bytes that reached the stream before a failure together with the
failure, and write_message swallows the failure exactly as the except
clause does. -/

structure WriteCond where
  prefixOk : Bool
  payloadOk : Bool
  flushOk : Bool

/-- The all-clear output stream. -/
def writeOk : WriteCond := ⟨true, true, true⟩

/-- The try-block body of write_message: bytes written before any raise,
plus the raised error if one occurred. -/
def write_message_attempt (fuel : Nat) (j : Json) (c : WriteCond) :
    List Nat × Option (List Char) :=
  let bytes := utf8Encode (dumpsF fuel j)
  if bytes.length < 4294967296 then
    if c.prefixOk then
      if c.payloadOk then
        if c.flushOk then (packLE bytes.length ++ bytes, none)
        else (packLE bytes.length ++ bytes, some (strL "flush failed"))
      else (packLE bytes.length, some (strL "write failed"))
    else ([], some (strL "write failed"))
  else ([], some (strL "struct.error: argument out of range"))

/-- write_message: the body with every exception caught and logged, never
re-raised; the caller only ever observes the bytes that reached stdout. -/
def write_message (fuel : Nat) (j : Json) (c : WriteCond) : List Nat :=
  match write_message_attempt fuel j c with
  | (bs, none) => bs
  | (bs, some _) => bs

/-! ## main (the command loop) -/

/-- How the loop ended: the clean EndOfInput path, or an unexpected
exception that escaped dispatch and was caught by the top-level handler
(both paths exit the process with code 0). -/
inductive LoopExit where
  | eof
  | exn (msg : List Char)

/-- The loop body, fueled by the remaining input length: each iteration
either consumes at least one byte of input or returns, so any fuel above
the input length is enough (the fuel-zero branch is unreachable then). -/
def mainF : Nat → List Nat → (Nat → CtrlOutcome) → Nat → List Json × LoopExit
  | 0, _, _, _ => ([], .eof)
  | fuel + 1, input, orc, i =>
    match read_message input with
    | (.endOfInput, _) => ([], .eof)
    | (.readError e, rest) =>
      let out := mainF fuel rest orc i
      (errorResp e :: out.1, out.2)
    | (.ok j, rest) =>
      let d := process_command j orc i
      match d.exn with
      | some m => (d.sent, .exn m)
      | none =>
        let out := mainF fuel rest orc d.idx
        (d.sent ++ out.1, out.2)

/-- main of the host: the while-True loop reading and dispatching until
EndOfInput, with MessageReadError reported and swallowed in the loop and
any other exception caught by the outer handler, ending the loop. -/
def mainLoop (input : List Nat) (orc : Nat → CtrlOutcome) (i : Nat) : List Json × LoopExit :=
  mainF (input.length + 1) input orc i

/-! ## Auxiliary lemmas: characters and decimal digits -/

theorem charToNat_ofNat {n : Nat} (h : n.isValidChar) : (Char.ofNat n).toNat = n := by
  simp only [Char.ofNat, h, dif_pos, Char.ofNatAux, Char.toNat]
  rfl

theorem charToNat_ofNat_small {n : Nat} (h : n < 55296) : (Char.ofNat n).toNat = n :=
  charToNat_ofNat (Or.inl h)

/-- Guard for the greedy number scan: the continuation does not begin with
a decimal digit, which holds at every call site of the round-trip proofs
(the continuation begins with a separator, a closing bracket or nothing). -/
def nextSafe : List Char → Bool
  | [] => true
  | c :: _ => decide (c.toNat < 48) || decide (57 < c.toNat)

theorem parseDigits_stop (acc : Nat) {rest : List Char} (h : nextSafe rest = true) :
    parseDigits acc rest = (acc, rest) := by
  cases rest with
  | nil => rfl
  | cons c t =>
    simp only [nextSafe, Bool.or_eq_true, decide_eq_true_eq] at h
    simp only [parseDigits, if_neg (by omega : ¬(48 ≤ c.toNat ∧ c.toNat ≤ 57))]

theorem parseDigits_natDigits :
    ∀ f n acc rest, n < f →
      parseDigits acc (natDigits f n ++ rest) =
        parseDigits (acc * 10 ^ (natDigits f n).length + n) rest := by
  intro f
  induction f with
  | zero => intro n _ _ h; omega
  | succ f ih =>
    intro n acc rest h
    by_cases h10 : n < 10
    · have hc : (Char.ofNat (48 + n)).toNat = 48 + n := charToNat_ofNat_small (by omega)
      simp only [natDigits, if_pos h10, List.cons_append, List.nil_append, parseDigits, hc,
        List.length_cons, List.length_nil]
      rw [if_pos (by omega : 48 ≤ 48 + n ∧ 48 + n ≤ 57)]
      congr 1
      norm_num
    · have hdiv : n / 10 < f := by omega
      have hc : (Char.ofNat (48 + n % 10)).toNat = 48 + n % 10 :=
        charToNat_ofNat_small (by omega)
      simp only [natDigits, if_neg h10, List.append_assoc, List.cons_append, List.nil_append]
      rw [ih (n / 10) acc (Char.ofNat (48 + n % 10) :: rest) hdiv]
      simp only [parseDigits, hc]
      rw [if_pos (by omega : 48 ≤ 48 + n % 10 ∧ 48 + n % 10 ≤ 57)]
      congr 1
      simp only [List.length_append, List.length_cons, List.length_nil, pow_succ, pow_zero]
      generalize 10 ^ (natDigits f (n / 10)).length = K
      have := Nat.div_add_mod n 10
      ring_nf
      omega

theorem natDigits_shape :
    ∀ f n, n < f → ∃ d t, natDigits f n = Char.ofNat (48 + d) :: t ∧ d < 10 ∧ (0 < n → 0 < d) := by
  intro f
  induction f with
  | zero => intro n h; omega
  | succ f ih =>
    intro n h
    by_cases h10 : n < 10
    · exact ⟨n, [], by simp [natDigits, if_pos h10], h10, fun hn => hn⟩
    · have hdiv : n / 10 < f := by omega
      obtain ⟨d, t, heq, hd, hpos⟩ := ih (n / 10) hdiv
      refine ⟨d, t ++ [Char.ofNat (48 + n % 10)], ?_, hd, fun _ => hpos (by omega)⟩
      simp [natDigits, if_neg h10, heq]

theorem parseNat_natDigits (f n : Nat) (rest : List Char) (h : n < f + 1)
    (hr : nextSafe rest = true) : parseNat (natDigits (f + 1) n ++ rest) = some (n, rest) := by
  have hfull : parseDigits 0 (natDigits (f + 1) n ++ rest) = (n, rest) := by
    rw [parseDigits_natDigits (f + 1) n 0 rest (by omega)]
    simpa using parseDigits_stop n hr
  obtain ⟨d, t, heq, hd, hpos⟩ := natDigits_shape (f + 1) n (by omega)
  have hc : (Char.ofNat (48 + d)).toNat = 48 + d := charToNat_ofNat_small (by omega)
  by_cases hn0 : n = 0
  · subst hn0
    have : natDigits (f + 1) 0 = [Char.ofNat 48] := by
      simp [natDigits]
    rw [this]
    have h0 : Char.ofNat 48 = '0' := by decide
    simp only [List.cons_append, List.nil_append, parseNat, h0, if_pos rfl]
    exact congrArg some (congrArg (Prod.mk 0) rfl)
  · have hdp : 0 < d := hpos (by omega)
    rw [heq] at hfull ⊢
    have hne : Char.ofNat (48 + d) ≠ '0' := by
      intro hcontra
      have : (Char.ofNat (48 + d)).toNat = ('0' : Char).toNat := congrArg Char.toNat hcontra
      rw [hc] at this
      simp only [show ('0' : Char).toNat = 48 from rfl] at this
      omega
    simp only [List.cons_append, parseNat, if_neg hne, hc]
    rw [if_pos (by omega : 49 ≤ 48 + d ∧ 48 + d ≤ 57)]
    simp only [List.cons_append, parseDigits, hc] at hfull
    rw [if_pos (by omega : 48 ≤ 48 + d ∧ 48 + d ≤ 57)] at hfull
    simpa using hfull

/-! ## Round-trip of the string escaping -/

theorem hexVal_hexChar {d : Nat} (h : d < 16) : hexVal (hexChar d) = some d := by
  by_cases h10 : d < 10
  · have hc : (Char.ofNat (48 + d)).toNat = 48 + d := charToNat_ofNat_small (by omega)
    simp only [hexChar, if_pos h10, hexVal, hc]
    rw [if_pos (by omega : 48 ≤ 48 + d ∧ 48 + d ≤ 57)]
    congr 1
    omega
  · have hc : (Char.ofNat (87 + d)).toNat = 87 + d := charToNat_ofNat_small (by omega)
    simp only [hexChar, if_neg h10, hexVal, hc]
    rw [if_neg (by omega : ¬(48 ≤ 87 + d ∧ 87 + d ≤ 57))]
    rw [if_pos (by omega : 97 ≤ 87 + d ∧ 87 + d ≤ 102)]
    congr 1
    omega

theorem parseHex4_hex4 (n : Nat) (r : List Char) (h : n < 65536) :
    parseHex4 (hex4 n ++ r) = some (n, r) := by
  have e1 := hexVal_hexChar (d := n / 4096 % 16) (by omega)
  have e2 := hexVal_hexChar (d := n / 256 % 16) (by omega)
  have e3 := hexVal_hexChar (d := n / 16 % 16) (by omega)
  have e4 := hexVal_hexChar (d := n % 16) (by omega)
  simp only [hex4, List.cons_append, List.nil_append, parseHex4, e1, e2, e3, e4]
  congr 1
  congr 1
  omega

theorem psbF_quote (f : Nat) (rest : List Char) :
    parseStringBodyF (f + 1) ('"' :: rest) = some ([], rest) := rfl

theorem psbF_lit (f : Nat) (c : Char) (cs : List Char) (h1 : c ≠ '"') (h2 : c ≠ '\\')
    (h3 : ¬ c.toNat < 32) :
    parseStringBodyF (f + 1) (c :: cs) =
      (parseStringBodyF f cs).map (fun p => (c :: p.1, p.2)) := by
  rw [parseStringBodyF.eq_3]
  simp only [if_neg h1, if_neg h2, if_neg h3]

theorem psbF_escape_step (f : Nat) (cs : List Char) :
    parseStringBodyF (f + 1) ('\\' :: cs) =
      match parseEscape cs with
      | some (u, r) => (parseStringBodyF f r).map (fun p => (u :: p.1, p.2))
      | none => none := by
  rw [parseStringBodyF.eq_3]
  simp only [if_neg (by decide : ('\\' : Char) ≠ '"'), if_pos, if_true]

theorem parseEscape_u_single (n : Nat) (r : List Char)
    (hval : n < 55296 ∨ (57343 < n ∧ n ≤ 65535)) :
    parseEscape ('u' :: (hex4 n ++ r)) = some (Char.ofNat n, r) := by
  rw [parseEscape.eq_2]
  rw [if_neg (by decide : ('u' : Char) ≠ '"'), if_neg (by decide : ('u' : Char) ≠ '\\'),
    if_neg (by decide : ('u' : Char) ≠ '/'), if_neg (by decide : ('u' : Char) ≠ 'b'),
    if_neg (by decide : ('u' : Char) ≠ 'f'), if_neg (by decide : ('u' : Char) ≠ 'n'),
    if_neg (by decide : ('u' : Char) ≠ 'r'), if_neg (by decide : ('u' : Char) ≠ 't'),
    if_pos rfl]
  rw [parseHex4_hex4 n r (by omega)]
  dsimp only
  rw [if_neg (by omega : ¬(55296 ≤ n ∧ n ≤ 56319))]
  rw [if_neg (by omega : ¬(56320 ≤ n ∧ n ≤ 57343))]

theorem parseEscape_u_pair (n : Nat) (r : List Char)
    (hval : 65536 ≤ n ∧ n ≤ 1114111) :
    parseEscape ('u' :: (hex4 (55296 + (n - 65536) / 1024) ++
        ('\\' :: ('u' :: (hex4 (56320 + (n - 65536) % 1024) ++ r))))) =
      some (Char.ofNat n, r) := by
  have hdiv : (n - 65536) / 1024 < 1024 := by omega
  rw [parseEscape.eq_2]
  rw [if_neg (by decide : ('u' : Char) ≠ '"'), if_neg (by decide : ('u' : Char) ≠ '\\'),
    if_neg (by decide : ('u' : Char) ≠ '/'), if_neg (by decide : ('u' : Char) ≠ 'b'),
    if_neg (by decide : ('u' : Char) ≠ 'f'), if_neg (by decide : ('u' : Char) ≠ 'n'),
    if_neg (by decide : ('u' : Char) ≠ 'r'), if_neg (by decide : ('u' : Char) ≠ 't'),
    if_pos rfl]
  rw [parseHex4_hex4 _ _ (by omega)]
  dsimp only
  rw [if_pos (by omega : 55296 ≤ 55296 + (n - 65536) / 1024 ∧ 55296 + (n - 65536) / 1024 ≤ 56319)]
  rw [if_pos (⟨rfl, rfl⟩ : ('\\' : Char) = '\\' ∧ ('u' : Char) = 'u')]
  rw [parseHex4_hex4 _ _ (by omega)]
  dsimp only
  rw [if_pos (by omega : 56320 ≤ 56320 + (n - 65536) % 1024 ∧ 56320 + (n - 65536) % 1024 ≤ 57343)]
  rw [show 65536 + (55296 + (n - 65536) / 1024 - 55296) * 1024 + (56320 + (n - 65536) % 1024 - 56320) = n from by omega]

theorem psbF_cons_escape (f : Nat) (cs R s0 rest : List Char) (u : Char)
    (hesc : parseEscape cs = some (u, R))
    (hR : parseStringBodyF f R = some (s0, rest)) :
    parseStringBodyF (f + 1) ('\\' :: cs) = some (u :: s0, rest) := by
  rw [psbF_escape_step, hesc]
  dsimp only
  rw [hR]
  rfl

theorem psbF_escapeList :
    ∀ (s : List Char) (fuel : Nat) (rest : List Char), s.length < fuel →
      parseStringBodyF fuel (escapeList s ++ '"' :: rest) = some (s, rest) := by
  intro s
  induction s with
  | nil =>
    intro fuel rest h
    cases fuel with
    | zero => omega
    | succ f => simpa [escapeList] using psbF_quote f rest
  | cons c cs ih =>
    intro fuel rest h
    cases fuel with
    | zero => omega
    | succ f =>
    have hIH : parseStringBodyF f (escapeList cs ++ '"' :: rest) = some (cs, rest) := by
      refine ih f rest ?_
      simp only [List.length_cons] at h
      omega
    simp only [escapeList, List.flatMap_cons] at hIH ⊢
    simp only [List.append_assoc]
    by_cases hq : c = '"'
    · subst hq
      rw [show escapeChar '"' = ['\\', '"'] from rfl]
      simp only [List.cons_append, List.nil_append]
      exact psbF_cons_escape f _ _ _ _ _ rfl hIH
    by_cases hb : c = '\\'
    · subst hb
      rw [show escapeChar '\\' = ['\\', '\\'] from rfl]
      simp only [List.cons_append, List.nil_append]
      exact psbF_cons_escape f _ _ _ _ _ rfl hIH
    by_cases h8 : c = Char.ofNat 8
    · subst h8
      rw [show escapeChar (Char.ofNat 8) = ['\\', 'b'] from rfl]
      simp only [List.cons_append, List.nil_append]
      exact psbF_cons_escape f _ _ _ _ _ rfl hIH
    by_cases h9 : c = Char.ofNat 9
    · subst h9
      rw [show escapeChar (Char.ofNat 9) = ['\\', 't'] from rfl]
      simp only [List.cons_append, List.nil_append]
      exact psbF_cons_escape f _ _ _ _ _ rfl hIH
    by_cases h10 : c = Char.ofNat 10
    · subst h10
      rw [show escapeChar (Char.ofNat 10) = ['\\', 'n'] from rfl]
      simp only [List.cons_append, List.nil_append]
      exact psbF_cons_escape f _ _ _ _ _ rfl hIH
    by_cases h12 : c = Char.ofNat 12
    · subst h12
      rw [show escapeChar (Char.ofNat 12) = ['\\', 'f'] from rfl]
      simp only [List.cons_append, List.nil_append]
      exact psbF_cons_escape f _ _ _ _ _ rfl hIH
    by_cases h13 : c = Char.ofNat 13
    · subst h13
      rw [show escapeChar (Char.ofNat 13) = ['\\', 'r'] from rfl]
      simp only [List.cons_append, List.nil_append]
      exact psbF_cons_escape f _ _ _ _ _ rfl hIH
    by_cases hlt : c.toNat < 32
    · rw [show escapeChar c = '\\' :: 'u' :: hex4 c.toNat from by
        simp only [escapeChar, if_neg hq, if_neg hb, if_neg h8, if_neg h9, if_neg h10,
          if_neg h12, if_neg h13, if_pos hlt]]
      simp only [List.cons_append, List.append_assoc]
      refine psbF_cons_escape f _ _ _ _ _ ?_ hIH
      rw [parseEscape_u_single c.toNat _ (Or.inl (by omega)), Char.ofNat_toNat]
    by_cases hle : c.toNat ≤ 126
    · rw [show escapeChar c = [c] from by
        simp only [escapeChar, if_neg hq, if_neg hb, if_neg h8, if_neg h9, if_neg h10,
          if_neg h12, if_neg h13, if_neg hlt, if_pos hle]]
      simp only [List.cons_append, List.nil_append]
      rw [psbF_lit f c _ hq hb hlt, hIH]
      rfl
    by_cases hbmp : c.toNat ≤ 65535
    · rw [show escapeChar c = '\\' :: 'u' :: hex4 c.toNat from by
        simp only [escapeChar, if_neg hq, if_neg hb, if_neg h8, if_neg h9, if_neg h10,
          if_neg h12, if_neg h13, if_neg hlt, if_neg hle, if_pos hbmp]]
      simp only [List.cons_append, List.append_assoc]
      refine psbF_cons_escape f _ _ _ _ _ ?_ hIH
      have hv : c.toNat < 55296 ∨ (57343 < c.toNat ∧ c.toNat ≤ 65535) := by
        have hch : c.toNat = c.val.toNat := rfl
        rcases c.valid with hsm | ⟨hlo, hhi⟩
        · exact Or.inl (by omega)
        · exact Or.inr ⟨by omega, hbmp⟩
      rw [parseEscape_u_single c.toNat _ hv, Char.ofNat_toNat]
    · rw [show escapeChar c =
          '\\' :: 'u' :: hex4 (55296 + (c.toNat - 65536) / 1024) ++
            ('\\' :: 'u' :: hex4 (56320 + (c.toNat - 65536) % 1024)) from by
        simp only [escapeChar, if_neg hq, if_neg hb, if_neg h8, if_neg h9, if_neg h10,
          if_neg h12, if_neg h13, if_neg hlt, if_neg hle, if_neg hbmp]]
      simp only [List.cons_append, List.append_assoc]
      refine psbF_cons_escape f _ _ _ _ _ ?_ hIH
      have hv : 65536 ≤ c.toNat ∧ c.toNat ≤ 1114111 := by
        have hch : c.toNat = c.val.toNat := rfl
        rcases c.valid with hsm | ⟨hlo, hhi⟩
        · omega
        · exact ⟨by omega, by omega⟩
      rw [parseEscape_u_pair c.toNat _ hv, Char.ofNat_toNat]

/-! ## The loop fuel is irrelevant above the input length -/

theorem read_message_shrinks :
    ∀ (input : List Nat), input ≠ [] → ((read_message input).2).length < input.length := by
  intro input hne
  match input with
  | [] => exact absurd rfl hne
  | [_] => simp [read_message]
  | [_, _] => simp [read_message]
  | [_, _, _] => simp [read_message]
  | b0 :: b1 :: b2 :: b3 :: rest =>
    by_cases h1 : unpackLE b0 b1 b2 b3 > 1048576
    · simp only [read_message, if_pos h1, List.length_cons]
      omega
    · simp only [read_message, if_neg h1]
      by_cases h2 : (rest.take (unpackLE b0 b1 b2 b3)).length ≠ unpackLE b0 b1 b2 b3
      · simp only [if_pos h2, List.length_drop, List.length_cons]
        omega
      · simp only [if_neg h2]
        cases utf8Decode (rest.take (unpackLE b0 b1 b2 b3)) with
        | none =>
          dsimp only
          simp only [List.length_drop, List.length_cons]
          omega
        | some chars =>
          dsimp only
          cases loads chars with
          | none =>
            dsimp only
            simp only [List.length_drop, List.length_cons]
            omega
          | some j =>
            dsimp only
            simp only [List.length_drop, List.length_cons]
            omega

theorem read_message_nil : read_message [] = (.endOfInput, []) := rfl

theorem read_message_eof (input : List Nat)
    (h : (read_message input).1 = .endOfInput) : input = [] := by
  match input with
  | [] => rfl
  | [_] => simp [read_message] at h
  | [_, _] => simp [read_message] at h
  | [_, _, _] => simp [read_message] at h
  | b0 :: b1 :: b2 :: b3 :: rest =>
    by_cases h1 : unpackLE b0 b1 b2 b3 > 1048576
    · simp only [read_message, if_pos h1] at h
      simp at h
    · simp only [read_message, if_neg h1] at h
      by_cases h2 : (rest.take (unpackLE b0 b1 b2 b3)).length ≠ unpackLE b0 b1 b2 b3
      · rw [if_pos h2] at h
        simp at h
      · rw [if_neg h2] at h
        cases hu : utf8Decode (rest.take (unpackLE b0 b1 b2 b3)) with
        | none =>
          rw [hu] at h
          simp at h
        | some chars =>
          rw [hu] at h
          dsimp only at h
          cases hl : loads chars with
          | none =>
            rw [hl] at h
            simp at h
          | some j =>
            rw [hl] at h
            simp at h

theorem mainF_irrel :
    ∀ (fa : Nat) (input : List Nat) (fb : Nat) (orc : Nat → CtrlOutcome) (i : Nat),
      input.length < fa → input.length < fb →
      mainF fa input orc i = mainF fb input orc i := by
  intro fa
  induction fa with
  | zero => intro input fb orc i ha _; omega
  | succ fa ih =>
    intro input fb orc i ha hb
    cases fb with
    | zero => omega
    | succ fb =>
    rw [mainF.eq_2, mainF.eq_2]
    rcases hread : read_message input with ⟨res, rest⟩
    have hne : res ≠ .endOfInput → input ≠ [] := by
      intro hres hnil
      subst hnil
      rw [read_message_nil] at hread
      cases hread
      exact hres rfl
    cases res with
    | endOfInput => rfl
    | readError e =>
      have hlt : rest.length < input.length := by
        have := read_message_shrinks input (hne (by intro hc; cases hc))
        rw [hread] at this
        exact this
      dsimp only
      rw [ih rest fb orc i (by omega) (by omega)]
    | ok j =>
      have hlt : rest.length < input.length := by
        have := read_message_shrinks input (hne (by intro hc; cases hc))
        rw [hread] at this
        exact this
      dsimp only
      cases (process_command j orc i).exn with
      | some m => rfl
      | none =>
        rw [ih rest fb orc (process_command j orc i).idx (by omega) (by omega)]

theorem mainLoop_eq (input : List Nat) (orc : Nat → CtrlOutcome) (i : Nat) :
    mainLoop input orc i =
      match read_message input with
      | (.endOfInput, _) => ([], .eof)
      | (.readError e, rest) =>
        (errorResp e :: (mainLoop rest orc i).1, (mainLoop rest orc i).2)
      | (.ok j, rest) =>
        match (process_command j orc i).exn with
        | some m => ((process_command j orc i).sent, .exn m)
        | none =>
          ((process_command j orc i).sent ++ (mainLoop rest orc (process_command j orc i).idx).1,
            (mainLoop rest orc (process_command j orc i).idx).2) := by
  show mainF (input.length + 1) input orc i = _
  rw [mainF.eq_2]
  rcases hread : read_message input with ⟨res, rest⟩
  have hne : res ≠ .endOfInput → input ≠ [] := by
    intro hres hnil
    subst hnil
    rw [read_message_nil] at hread
    cases hread
    exact hres rfl
  cases res with
  | endOfInput => rfl
  | readError e =>
    have hlt : rest.length < input.length := by
      have := read_message_shrinks input (hne (by intro hc; cases hc))
      rw [hread] at this
      exact this
    dsimp only
    rw [mainF_irrel input.length rest (rest.length + 1) orc i (by omega) (by omega)]
    rfl
  | ok j =>
    have hlt : rest.length < input.length := by
      have := read_message_shrinks input (hne (by intro hc; cases hc))
      rw [hread] at this
      exact this
    dsimp only
    cases (process_command j orc i).exn with
    | some m => rfl
    | none =>
      rw [mainF_irrel input.length rest (rest.length + 1) orc
        (process_command j orc i).idx (by omega) (by omega)]
      rfl

theorem mainLoop_nil (orc : Nat → CtrlOutcome) (i : Nat) : mainLoop [] orc i = ([], .eof) := rfl

theorem mainLoop_readError (input : List Nat) (orc : Nat → CtrlOutcome) (i : Nat)
    (e : List Char) (rest : List Nat) (h : read_message input = (.readError e, rest)) :
    mainLoop input orc i =
      (errorResp e :: (mainLoop rest orc i).1, (mainLoop rest orc i).2) := by
  rw [mainLoop_eq, h]

theorem mainLoop_ok (input : List Nat) (orc : Nat → CtrlOutcome) (i : Nat)
    (j : Json) (rest : List Nat) (h : read_message input = (.ok j, rest))
    (hx : (process_command j orc i).exn = none) :
    mainLoop input orc i =
      ((process_command j orc i).sent ++ (mainLoop rest orc (process_command j orc i).idx).1,
        (mainLoop rest orc (process_command j orc i).idx).2) := by
  rw [mainLoop_eq, h]
  dsimp only
  rw [hx]

theorem mainLoop_raise (input : List Nat) (orc : Nat → CtrlOutcome) (i : Nat)
    (j : Json) (rest : List Nat) (m : List Char) (h : read_message input = (.ok j, rest))
    (hx : (process_command j orc i).exn = some m) :
    mainLoop input orc i = ((process_command j orc i).sent, .exn m) := by
  rw [mainLoop_eq, h]
  dsimp only
  rw [hx]

/-! ## read_message step facts -/

/-- The processing read_message applies to a fully read payload: UTF-8
decoding then JSON parsing. -/
def readPayload (payload : List Nat) : ReadResult :=
  match utf8Decode payload with
  | none => .readError (strL "Invalid UTF-8 encoding")
  | some chars =>
    match loads chars with
    | none => .readError (strL "Invalid JSON")
    | some j => .ok j

theorem read_message_sized (b0 b1 b2 b3 : Nat) (payload : List Nat)
    (hle : ¬ unpackLE b0 b1 b2 b3 > 1048576) :
    read_message (b0 :: b1 :: b2 :: b3 :: payload) =
      (if (payload.take (unpackLE b0 b1 b2 b3)).length ≠ unpackLE b0 b1 b2 b3 then
        .readError (strL "Incomplete message: expected " ++
          strL (toString (unpackLE b0 b1 b2 b3)) ++ strL " bytes, got " ++
          strL (toString (payload.take (unpackLE b0 b1 b2 b3)).length))
      else readPayload (payload.take (unpackLE b0 b1 b2 b3)),
        payload.drop (unpackLE b0 b1 b2 b3)) := by
  simp only [read_message, if_neg hle]
  by_cases h2 : (payload.take (unpackLE b0 b1 b2 b3)).length ≠ unpackLE b0 b1 b2 b3
  · rw [if_pos h2, if_pos h2]
  · rw [if_neg h2, if_neg h2]
    unfold readPayload
    cases utf8Decode (payload.take (unpackLE b0 b1 b2 b3)) with
    | none => rfl
    | some chars =>
      dsimp only
      cases loads chars with
      | none => rfl
      | some j => rfl

theorem read_message_toolarge (b0 b1 b2 b3 : Nat) (payload : List Nat)
    (h : unpackLE b0 b1 b2 b3 > 1048576) :
    read_message (b0 :: b1 :: b2 :: b3 :: payload) =
      (.readError (strL "Message too large: " ++ strL (toString (unpackLE b0 b1 b2 b3)) ++
        strL " bytes"), payload) := by
  simp only [read_message, if_pos h]

theorem read_message_frame (b0 b1 b2 b3 : Nat) (payload rest : List Nat)
    (hlen : payload.length = unpackLE b0 b1 b2 b3) (hle : ¬ unpackLE b0 b1 b2 b3 > 1048576) :
    read_message (b0 :: b1 :: b2 :: b3 :: (payload ++ rest)) = (readPayload payload, rest) := by
  rw [read_message_sized b0 b1 b2 b3 (payload ++ rest) hle]
  rw [← hlen, List.take_left, List.drop_left]
  rw [if_neg (by omega : ¬ payload.length ≠ payload.length)]

theorem read_message_incomplete (b0 b1 b2 b3 : Nat) (payload : List Nat)
    (hle : ¬ unpackLE b0 b1 b2 b3 > 1048576)
    (hlt : payload.length < unpackLE b0 b1 b2 b3) :
    read_message (b0 :: b1 :: b2 :: b3 :: payload) =
      (.readError (strL "Incomplete message: expected " ++
        strL (toString (unpackLE b0 b1 b2 b3)) ++ strL " bytes, got " ++
        strL (toString payload.length)), []) := by
  rw [read_message_sized b0 b1 b2 b3 payload hle]
  have htake : (payload.take (unpackLE b0 b1 b2 b3)).length = payload.length := by
    simp only [List.length_take]
    omega
  rw [if_pos (by omega : (payload.take (unpackLE b0 b1 b2 b3)).length ≠ unpackLE b0 b1 b2 b3)]
  rw [htake, List.drop_eq_nil_of_le (by omega)]

/-! ## process_command case facts -/

/-- Whether a decoded value is a JSON object (a Python dict). -/
def Json.isObj : Json → Bool
  | .obj _ => true
  | _ => false

theorem process_command_not_obj (v : Json) (orc : Nat → CtrlOutcome) (i : Nat)
    (h : v.isObj = false) :
    process_command v orc i = ⟨[errorResp (strL "Invalid message format")], none, i⟩ := by
  cases v with
  | null => rfl
  | bool b => rfl
  | int n => rfl
  | str s => rfl
  | arr xs => rfl
  | obj fs => simp [Json.isObj] at h

theorem process_command_no_cmd (fs : List (List Char × Json)) (orc : Nat → CtrlOutcome)
    (i : Nat) (h : (Json.obj fs).get (strL "command") = none) :
    process_command (.obj fs) orc i =
      ⟨[errorResp (strL "No command specified")], none, i⟩ := by
  unfold process_command
  dsimp only
  rw [h]

theorem process_command_falsy (fs : List (List Char × Json)) (orc : Nat → CtrlOutcome)
    (i : Nat) (cmd : Json) (h : (Json.obj fs).get (strL "command") = some cmd)
    (hf : jsonFalsy cmd = true) :
    process_command (.obj fs) orc i =
      ⟨[errorResp (strL "No command specified")], none, i⟩ := by
  unfold process_command
  dsimp only
  rw [h]
  dsimp only
  rw [if_pos hf]

theorem process_command_mute (fs : List (List Char × Json)) (orc : Nat → CtrlOutcome)
    (i : Nat) (h : (Json.obj fs).get (strL "command") = some (.str (strL "mute"))) :
    process_command (.obj fs) orc i = dispatchToggle orc i (strL "Failed to mute") := by
  unfold process_command
  dsimp only
  rw [h]
  dsimp only
  rw [if_neg (by decide : ¬ jsonFalsy (.str (strL "mute")) = true)]
  rw [if_pos rfl]

theorem process_command_unmute (fs : List (List Char × Json)) (orc : Nat → CtrlOutcome)
    (i : Nat) (h : (Json.obj fs).get (strL "command") = some (.str (strL "unmute"))) :
    process_command (.obj fs) orc i = dispatchToggle orc i (strL "Failed to unmute") := by
  unfold process_command
  dsimp only
  rw [h]
  dsimp only
  rw [if_neg (by decide : ¬ jsonFalsy (.str (strL "unmute")) = true)]
  rw [if_neg (by decide : ¬ strL "unmute" = strL "mute")]
  rw [if_pos rfl]

theorem process_command_getStatus (fs : List (List Char × Json)) (orc : Nat → CtrlOutcome)
    (i : Nat) (h : (Json.obj fs).get (strL "command") = some (.str (strL "getStatus"))) :
    process_command (.obj fs) orc i =
      match orc i with
      | .raise m => ⟨[], some m, i + 1⟩
      | .success muted => ⟨[statusResp muted], none, i + 1⟩
      | .failure e => ⟨[errorResp (pyOr e (strL "Failed to get status"))], none, i + 1⟩ := by
  unfold process_command
  dsimp only
  rw [h]
  dsimp only
  rw [if_neg (by decide : ¬ jsonFalsy (.str (strL "getStatus")) = true)]
  rw [if_neg (by decide : ¬ strL "getStatus" = strL "mute")]
  rw [if_neg (by decide : ¬ strL "getStatus" = strL "unmute")]
  rw [if_pos rfl]

theorem process_command_unknown (fs : List (List Char × Json)) (orc : Nat → CtrlOutcome)
    (i : Nat) (s : List Char) (h : (Json.obj fs).get (strL "command") = some (.str s))
    (hne : s ≠ []) (h1 : s ≠ strL "mute") (h2 : s ≠ strL "unmute")
    (h3 : s ≠ strL "getStatus") :
    process_command (.obj fs) orc i =
      ⟨[errorResp (strL "Unknown command: " ++ s)], none, i⟩ := by
  unfold process_command
  dsimp only
  rw [h]
  dsimp only
  rw [if_neg (by simp [jsonFalsy, hne] : ¬ jsonFalsy (.str s) = true)]
  rw [if_neg h1, if_neg h2, if_neg h3]

theorem process_command_cases (j : Json) (orc : Nat → CtrlOutcome) (i : Nat) :
    ((process_command j orc i).exn = none ∧ (process_command j orc i).sent.length = 1) ∨
    (∃ m, orc i = .raise m ∧ process_command j orc i = ⟨[], some m, i + 1⟩) := by
  have htoggle : ∀ fb, ((dispatchToggle orc i fb).exn = none ∧
      (dispatchToggle orc i fb).sent.length = 1) ∨
      (∃ m, orc i = .raise m ∧ dispatchToggle orc i fb = ⟨[], some m, i + 1⟩) := by
    intro fb
    unfold dispatchToggle
    cases horc : orc i with
    | success m => exact Or.inl ⟨rfl, rfl⟩
    | failure e => exact Or.inl ⟨rfl, rfl⟩
    | raise m => exact Or.inr ⟨m, rfl, rfl⟩
  cases j with
  | null => exact Or.inl ⟨rfl, rfl⟩
  | bool b => exact Or.inl ⟨rfl, rfl⟩
  | int n => exact Or.inl ⟨rfl, rfl⟩
  | str s => exact Or.inl ⟨rfl, rfl⟩
  | arr xs => exact Or.inl ⟨rfl, rfl⟩
  | obj fs =>
    cases hget : (Json.obj fs).get (strL "command") with
    | none =>
      rw [process_command_no_cmd fs orc i hget]
      exact Or.inl ⟨rfl, rfl⟩
    | some cmd =>
      by_cases hf : jsonFalsy cmd = true
      · rw [process_command_falsy fs orc i cmd hget hf]
        exact Or.inl ⟨rfl, rfl⟩
      · unfold process_command
        dsimp only
        rw [hget]
        dsimp only
        rw [if_neg hf]
        cases cmd with
        | null => exact Or.inl ⟨rfl, rfl⟩
        | bool b => exact Or.inl ⟨rfl, rfl⟩
        | int n => exact Or.inl ⟨rfl, rfl⟩
        | arr xs => exact Or.inl ⟨rfl, rfl⟩
        | obj fs2 => exact Or.inl ⟨rfl, rfl⟩
        | str s =>
          dsimp only
          by_cases h1 : s = strL "mute"
          · rw [if_pos h1]
            exact htoggle _
          rw [if_neg h1]
          by_cases h2 : s = strL "unmute"
          · rw [if_pos h2]
            exact htoggle _
          rw [if_neg h2]
          by_cases h3 : s = strL "getStatus"
          · rw [if_pos h3]
            cases horc : orc i with
            | success m => exact Or.inl ⟨rfl, rfl⟩
            | failure e => exact Or.inl ⟨rfl, rfl⟩
            | raise m => exact Or.inr ⟨m, rfl, rfl⟩
          rw [if_neg h3]
          exact Or.inl ⟨rfl, rfl⟩

/-! ## Loop-level facts -/

theorem mainLoop_safe_eof_aux :
    ∀ (n : Nat) (input : List Nat) (orc : Nat → CtrlOutcome) (i : Nat),
      input.length ≤ n → (∀ k, (orc k).isRaise = false) →
      (mainLoop input orc i).2 = .eof := by
  intro n
  induction n with
  | zero =>
    intro input orc i hlen hsafe
    have : input = [] := by
      cases input with
      | nil => rfl
      | cons a t => simp at hlen
    subst this
    rfl
  | succ n ih =>
    intro input orc i hlen hsafe
    rw [mainLoop_eq]
    rcases hread : read_message input with ⟨res, rest⟩
    have hne : res ≠ .endOfInput → rest.length ≤ n := by
      intro hres
      have hnil : input ≠ [] := by
        intro hc
        subst hc
        rw [read_message_nil] at hread
        cases hread
        exact hres rfl
      have := read_message_shrinks input hnil
      rw [hread] at this
      dsimp only at this
      omega
    cases res with
    | endOfInput => rfl
    | readError e =>
      dsimp only
      exact ih rest orc i (hne (by intro hc; cases hc)) hsafe
    | ok j =>
      dsimp only
      rcases process_command_cases j orc i with ⟨hexn, _⟩ | ⟨m, horc, _⟩
      · rw [hexn]
        exact ih rest orc (process_command j orc i).idx (hne (by intro hc; cases hc)) hsafe
      · have := hsafe i
        rw [horc] at this
        simp [CtrlOutcome.isRaise] at this

/-- A concrete mute request frame (length prefix 19, payload the UTF-8
bytes of the JSON text of a mute command object). -/
def demoMuteFrame : List Nat :=
  [19, 0, 0, 0] ++ utf8Encode (dumpsF 2 (Json.obj [(strL "command", Json.str (strL "mute"))]))

/-! ## The claims -/

/-- C1 (counterexample): the claim says an unexpected exception raised by a
collaborator call during dispatch does not terminate the loop, which then
keeps reading until a 0-byte length-prefix read.  On a stream holding two
well-formed mute frames, an oracle whose first call raises makes the loop
end with the exception exit (caught by the outer handler, not the clean
EndOfInput path) after zero responses, while the same stream under a
non-raising oracle yields two responses — so the second frame was never
read after the exception. -/
theorem claim_C1_counterexample :
    mainLoop (demoMuteFrame ++ demoMuteFrame) (fun _ => .raise (strL "boom")) 0 =
      ([], .exn (strL "boom")) ∧
    (mainLoop (demoMuteFrame ++ demoMuteFrame) (fun _ => .success true) 0).1.length = 2 := by
  exact ⟨rfl, rfl⟩

/-- C1 (amended): the command loop is a two-state machine whose clean
termination is the EndOfStream signal; an unexpected exception escaping a
dispatch call is caught at the top-level boundary, logged, and ends the
loop with exit code 0 rather than crashing, so the loop keeps reading
further frames until a 0-byte length-prefix read only when no collaborator
call raises: under an oracle that never raises, every run ends in the
clean EndOfInput exit. -/
theorem claim_C1 (input : List Nat) (orc : Nat → CtrlOutcome) (i : Nat)
    (hsafe : ∀ k, (orc k).isRaise = false) :
    (mainLoop input orc i).2 = .eof :=
  mainLoop_safe_eof_aux input.length input orc i (Nat.le_refl _) hsafe

/-- Witness for C1 at a concrete input: one mute frame under an oracle
that always succeeds ends in the clean EndOfInput exit. -/
theorem claim_C1_witness :
    (mainLoop demoMuteFrame (fun _ => .success true) 0).2 = .eof :=
  claim_C1 demoMuteFrame (fun _ => .success true) 0 (fun _ => rfl)

/-- C4: a 0-byte read on the length prefix signals EndOfStream and the
loop terminates cleanly; a 1, 2 or 3 byte read before stream end signals
MalformedFrame (the short length-prefix description), which the loop
reports as an Error response rather than treating as termination. -/
theorem claim_C4 :
    (read_message [] = (.endOfInput, []) ∧
      ∀ (orc : Nat → CtrlOutcome) (i : Nat), mainLoop [] orc i = ([], .eof)) ∧
    (∀ (a : Nat) (orc : Nat → CtrlOutcome) (i : Nat),
      read_message [a] =
        (.readError (strL "Invalid length prefix: expected 4 bytes, got 1"), []) ∧
      mainLoop [a] orc i =
        ([errorResp (strL "Invalid length prefix: expected 4 bytes, got 1")], .eof)) ∧
    (∀ (a b : Nat) (orc : Nat → CtrlOutcome) (i : Nat),
      read_message [a, b] =
        (.readError (strL "Invalid length prefix: expected 4 bytes, got 2"), []) ∧
      mainLoop [a, b] orc i =
        ([errorResp (strL "Invalid length prefix: expected 4 bytes, got 2")], .eof)) ∧
    (∀ (a b c : Nat) (orc : Nat → CtrlOutcome) (i : Nat),
      read_message [a, b, c] =
        (.readError (strL "Invalid length prefix: expected 4 bytes, got 3"), []) ∧
      mainLoop [a, b, c] orc i =
        ([errorResp (strL "Invalid length prefix: expected 4 bytes, got 3")], .eof)) := by
  refine ⟨⟨rfl, fun orc i => rfl⟩, ?_, ?_, ?_⟩
  · intro a orc i
    refine ⟨rfl, ?_⟩
    rw [mainLoop_readError [a] orc i _ [] rfl]
    rfl
  · intro a b orc i
    refine ⟨rfl, ?_⟩
    rw [mainLoop_readError [a, b] orc i _ [] rfl]
    rfl
  · intro a b c orc i
    refine ⟨rfl, ?_⟩
    rw [mainLoop_readError [a, b, c] orc i _ [] rfl]
    rfl

/-- C5: for a complete length prefix decoding to n, if n is at most
1,048,576 the payload read is attempted (exactly n bytes are consumed from
the stream and the outcome is the incomplete-message error or the payload
processing, never the size rejection); if n exceeds 1,048,576 the frame is
rejected with the message-too-large error before any payload byte is
consumed, leaving the payload on the stream. -/
theorem claim_C5 (b0 b1 b2 b3 : Nat) (payload : List Nat) :
    (¬ unpackLE b0 b1 b2 b3 > 1048576 →
      read_message (b0 :: b1 :: b2 :: b3 :: payload) =
        (if (payload.take (unpackLE b0 b1 b2 b3)).length ≠ unpackLE b0 b1 b2 b3 then
          .readError (strL "Incomplete message: expected " ++
            strL (toString (unpackLE b0 b1 b2 b3)) ++ strL " bytes, got " ++
            strL (toString (payload.take (unpackLE b0 b1 b2 b3)).length))
        else readPayload (payload.take (unpackLE b0 b1 b2 b3)),
          payload.drop (unpackLE b0 b1 b2 b3))) ∧
    (unpackLE b0 b1 b2 b3 > 1048576 →
      read_message (b0 :: b1 :: b2 :: b3 :: payload) =
        (.readError (strL "Message too large: " ++ strL (toString (unpackLE b0 b1 b2 b3)) ++
          strL " bytes"), payload)) :=
  ⟨read_message_sized b0 b1 b2 b3 payload, read_message_toolarge b0 b1 b2 b3 payload⟩

/-- Witness for C5 at the two boundary lengths: a prefix declaring exactly
1,048,576 passes the size check (the read is attempted and reports the
incomplete payload), and a prefix declaring 1,048,577 is rejected as too
large with the three payload bytes left unconsumed on the stream. -/
theorem claim_C5_witness :
    read_message [0, 0, 16, 0, 7, 8, 9] =
      (.readError (strL "Incomplete message: expected 1048576 bytes, got 3"), []) ∧
    read_message [1, 0, 16, 0, 7, 8, 9] =
      (.readError (strL "Message too large: 1048577 bytes"), [7, 8, 9]) := by
  constructor
  · have h := (claim_C5 0 0 16 0 [7, 8, 9]).1 (by decide)
    rw [h]
    rfl
  · have h := (claim_C5 1 0 16 0 [7, 8, 9]).2 (by decide)
    rw [h]
    rfl

/-- C10: a frame whose complete 4-byte prefix declares length 0 is not
end of stream: the empty payload is read, fails JSON parsing, and decode
signals the MalformedFrame with the invalid-JSON description, so the loop
replies with an Error response and continues on the remaining stream. -/
theorem claim_C10 (rest : List Nat) (orc : Nat → CtrlOutcome) (i : Nat) :
    read_message (0 :: 0 :: 0 :: 0 :: rest) = (.readError (strL "Invalid JSON"), rest) ∧
    mainLoop (0 :: 0 :: 0 :: 0 :: rest) orc i =
      (errorResp (strL "Invalid JSON") :: (mainLoop rest orc i).1,
        (mainLoop rest orc i).2) := by
  have hread : read_message (0 :: 0 :: 0 :: 0 :: rest) =
      (.readError (strL "Invalid JSON"), rest) := by
    have h := read_message_frame 0 0 0 0 [] rest rfl (by decide)
    simpa using h
  exact ⟨hread, mainLoop_readError _ orc i _ rest hread⟩

/-- C2 (counterexample): the claim says that on mute failure the response
carries the error text the collaborator provided, with the fixed fallback
only when none is provided.  When the collaborator provides the empty
string as its error text, the host replies with the fallback instead of
the provided (empty) text, because the Python `error or fallback` idiom
tests truthiness rather than presence. -/
theorem claim_C2_counterexample :
    process_command (Json.obj [(strL "command", Json.str (strL "mute"))])
        (fun _ => .failure (some [])) 0 =
      ⟨[errorResp (strL "Failed to mute")], none, 1⟩ ∧
    errorResp (strL "Failed to mute") ≠ errorResp [] := by
  refine ⟨rfl, ?_⟩
  simp only [errorResp, ne_eq, Json.obj.injEq, List.cons.injEq, Prod.mk.injEq, Json.str.injEq,
    and_true, true_and, not_and]
  intro h
  exact absurd h (by decide)

/-- C2 (amended): for every object message whose command is mute, unmute
or getStatus, dispatch emits exactly the specified response: on success
the success shape (or the status shape carrying the queried boolean), and
on failure the error shape whose text is the collaborator error text when
one is provided and non-empty, and the fixed per-command fallback when the
collaborator provides none or an empty (falsy) text. -/
theorem claim_C2 (fs : List (List Char × Json)) (orc : Nat → CtrlOutcome) (i : Nat) :
    ((Json.obj fs).get (strL "command") = some (.str (strL "mute")) →
      (∀ m, orc i = .success m →
        process_command (.obj fs) orc i = ⟨[successResp], none, i + 1⟩) ∧
      (∀ e, orc i = .failure (some e) → e ≠ [] →
        process_command (.obj fs) orc i = ⟨[errorResp e], none, i + 1⟩) ∧
      (orc i = .failure none →
        process_command (.obj fs) orc i =
          ⟨[errorResp (strL "Failed to mute")], none, i + 1⟩) ∧
      (orc i = .failure (some []) →
        process_command (.obj fs) orc i =
          ⟨[errorResp (strL "Failed to mute")], none, i + 1⟩)) ∧
    ((Json.obj fs).get (strL "command") = some (.str (strL "unmute")) →
      (∀ m, orc i = .success m →
        process_command (.obj fs) orc i = ⟨[successResp], none, i + 1⟩) ∧
      (∀ e, orc i = .failure (some e) → e ≠ [] →
        process_command (.obj fs) orc i = ⟨[errorResp e], none, i + 1⟩) ∧
      (orc i = .failure none →
        process_command (.obj fs) orc i =
          ⟨[errorResp (strL "Failed to unmute")], none, i + 1⟩) ∧
      (orc i = .failure (some []) →
        process_command (.obj fs) orc i =
          ⟨[errorResp (strL "Failed to unmute")], none, i + 1⟩)) ∧
    ((Json.obj fs).get (strL "command") = some (.str (strL "getStatus")) →
      (∀ m, orc i = .success m →
        process_command (.obj fs) orc i = ⟨[statusResp m], none, i + 1⟩) ∧
      (∀ e, orc i = .failure (some e) → e ≠ [] →
        process_command (.obj fs) orc i = ⟨[errorResp e], none, i + 1⟩) ∧
      (orc i = .failure none →
        process_command (.obj fs) orc i =
          ⟨[errorResp (strL "Failed to get status")], none, i + 1⟩) ∧
      (orc i = .failure (some []) →
        process_command (.obj fs) orc i =
          ⟨[errorResp (strL "Failed to get status")], none, i + 1⟩)) := by
  refine ⟨fun hget => ?_, fun hget => ?_, fun hget => ?_⟩
  · rw [process_command_mute fs orc i hget]
    unfold dispatchToggle
    refine ⟨fun m hm => by rw [hm], fun e he hne => ?_, fun hn => ?_, fun he => ?_⟩
    · rw [he]
      dsimp only
      rw [show pyOr (some e) (strL "Failed to mute") = e from by
        simp [pyOr, hne]]
    · rw [hn]
      rfl
    · rw [he]
      rfl
  · rw [process_command_unmute fs orc i hget]
    unfold dispatchToggle
    refine ⟨fun m hm => by rw [hm], fun e he hne => ?_, fun hn => ?_, fun he => ?_⟩
    · rw [he]
      dsimp only
      rw [show pyOr (some e) (strL "Failed to unmute") = e from by
        simp [pyOr, hne]]
    · rw [hn]
      rfl
    · rw [he]
      rfl
  · rw [process_command_getStatus fs orc i hget]
    refine ⟨fun m hm => by rw [hm], fun e he hne => ?_, fun hn => ?_, fun he => ?_⟩
    · rw [he]
      dsimp only
      rw [show pyOr (some e) (strL "Failed to get status") = e from by
        simp [pyOr, hne]]
    · rw [hn]
      rfl
    · rw [he]
      rfl

/-- Witness for C2 at concrete inputs: a mute success, a mute failure with
a provided error text, and a getStatus success with a true state. -/
theorem claim_C2_witness :
    process_command (Json.obj [(strL "command", Json.str (strL "mute"))])
        (fun _ => .success false) 0 = ⟨[successResp], none, 1⟩ ∧
    process_command (Json.obj [(strL "command", Json.str (strL "mute"))])
        (fun _ => .failure (some (strL "osascript not found"))) 0 =
      ⟨[errorResp (strL "osascript not found")], none, 1⟩ ∧
    process_command (Json.obj [(strL "command", Json.str (strL "getStatus"))])
        (fun _ => .success true) 0 = ⟨[statusResp true], none, 1⟩ := by
  refine ⟨?_, ?_, ?_⟩
  · exact ((claim_C2 [(strL "command", Json.str (strL "mute"))]
      (fun _ => .success false) 0).1 rfl).1 false rfl
  · exact (((claim_C2 [(strL "command", Json.str (strL "mute"))]
      (fun _ => .failure (some (strL "osascript not found"))) 0).1 rfl).2.1
      (strL "osascript not found") rfl (by decide))
  · exact ((claim_C2 [(strL "command", Json.str (strL "getStatus"))]
      (fun _ => .success true) 0).2.2 rfl).1 true rfl

/-- C6: a successfully decoded message that is not a JSON object is
answered with the invalid-message-format error; an object whose command
field is absent or falsy is answered with the no-command-specified error;
an object whose command is a (non-falsy) string other than mute, unmute
and getStatus is answered with the unknown-command error naming it. -/
theorem claim_C6 :
    (∀ (v : Json) (orc : Nat → CtrlOutcome) (i : Nat), v.isObj = false →
      process_command v orc i = ⟨[errorResp (strL "Invalid message format")], none, i⟩) ∧
    (∀ (fs : List (List Char × Json)) (orc : Nat → CtrlOutcome) (i : Nat),
      (Json.obj fs).get (strL "command") = none →
      process_command (.obj fs) orc i =
        ⟨[errorResp (strL "No command specified")], none, i⟩) ∧
    (∀ (fs : List (List Char × Json)) (orc : Nat → CtrlOutcome) (i : Nat) (cmd : Json),
      (Json.obj fs).get (strL "command") = some cmd → jsonFalsy cmd = true →
      process_command (.obj fs) orc i =
        ⟨[errorResp (strL "No command specified")], none, i⟩) ∧
    (∀ (fs : List (List Char × Json)) (orc : Nat → CtrlOutcome) (i : Nat) (s : List Char),
      (Json.obj fs).get (strL "command") = some (.str s) → s ≠ [] →
      s ≠ strL "mute" → s ≠ strL "unmute" → s ≠ strL "getStatus" →
      process_command (.obj fs) orc i =
        ⟨[errorResp (strL "Unknown command: " ++ s)], none, i⟩) :=
  ⟨fun v orc i h => process_command_not_obj v orc i h,
   fun fs orc i h => process_command_no_cmd fs orc i h,
   fun fs orc i cmd h hf => process_command_falsy fs orc i cmd h hf,
   fun fs orc i s h hne h1 h2 h3 => process_command_unknown fs orc i s h hne h1 h2 h3⟩

/-- Witness for C6 at concrete inputs: a bare number message, an object
without a command, an object with command 0 (falsy), and the frobnicate
scenario. -/
theorem claim_C6_witness :
    process_command (Json.int 5) (fun _ => .success true) 0 =
      ⟨[errorResp (strL "Invalid message format")], none, 0⟩ ∧
    process_command (Json.obj [(strL "x", Json.int 1)]) (fun _ => .success true) 0 =
      ⟨[errorResp (strL "No command specified")], none, 0⟩ ∧
    process_command (Json.obj [(strL "command", Json.int 0)]) (fun _ => .success true) 0 =
      ⟨[errorResp (strL "No command specified")], none, 0⟩ ∧
    process_command (Json.obj [(strL "command", Json.str (strL "frobnicate"))])
        (fun _ => .success true) 0 =
      ⟨[errorResp (strL "Unknown command: frobnicate")], none, 0⟩ := by
  refine ⟨?_, ?_, ?_, ?_⟩
  · exact claim_C6.1 (Json.int 5) (fun _ => .success true) 0 rfl
  · exact claim_C6.2.1 [(strL "x", Json.int 1)] (fun _ => .success true) 0 rfl
  · exact claim_C6.2.2.1 [(strL "command", Json.int 0)] (fun _ => .success true) 0
      (Json.int 0) rfl rfl
  · have h := claim_C6.2.2.2 [(strL "command", Json.str (strL "frobnicate"))]
      (fun _ => .success true) 0 (strL "frobnicate") rfl (by decide) (by decide)
      (by decide) (by decide)
    exact h

/-- C3: a frame whose payload fails to decode yields the MalformedFrame
outcome carrying a description of the failure, and the loop then emits an
Error response carrying that same description and goes on reading from the
remaining stream instead of terminating: stated for the three payload
failures — fewer bytes than declared before stream end, invalid UTF-8, and
a JSON parse failure. -/
theorem claim_C3 :
    (∀ (b0 b1 b2 b3 : Nat) (payload : List Nat) (orc : Nat → CtrlOutcome) (i : Nat),
      ¬ unpackLE b0 b1 b2 b3 > 1048576 → payload.length < unpackLE b0 b1 b2 b3 →
      read_message (b0 :: b1 :: b2 :: b3 :: payload) =
        (.readError (strL "Incomplete message: expected " ++
          strL (toString (unpackLE b0 b1 b2 b3)) ++ strL " bytes, got " ++
          strL (toString payload.length)), []) ∧
      mainLoop (b0 :: b1 :: b2 :: b3 :: payload) orc i =
        ([errorResp (strL "Incomplete message: expected " ++
          strL (toString (unpackLE b0 b1 b2 b3)) ++ strL " bytes, got " ++
          strL (toString payload.length))], .eof)) ∧
    (∀ (b0 b1 b2 b3 : Nat) (payload rest : List Nat) (orc : Nat → CtrlOutcome) (i : Nat),
      payload.length = unpackLE b0 b1 b2 b3 → ¬ unpackLE b0 b1 b2 b3 > 1048576 →
      utf8Decode payload = none →
      read_message (b0 :: b1 :: b2 :: b3 :: (payload ++ rest)) =
        (.readError (strL "Invalid UTF-8 encoding"), rest) ∧
      mainLoop (b0 :: b1 :: b2 :: b3 :: (payload ++ rest)) orc i =
        (errorResp (strL "Invalid UTF-8 encoding") :: (mainLoop rest orc i).1,
          (mainLoop rest orc i).2)) ∧
    (∀ (b0 b1 b2 b3 : Nat) (payload rest : List Nat) (orc : Nat → CtrlOutcome) (i : Nat)
      (chars : List Char),
      payload.length = unpackLE b0 b1 b2 b3 → ¬ unpackLE b0 b1 b2 b3 > 1048576 →
      utf8Decode payload = some chars → loads chars = none →
      read_message (b0 :: b1 :: b2 :: b3 :: (payload ++ rest)) =
        (.readError (strL "Invalid JSON"), rest) ∧
      mainLoop (b0 :: b1 :: b2 :: b3 :: (payload ++ rest)) orc i =
        (errorResp (strL "Invalid JSON") :: (mainLoop rest orc i).1,
          (mainLoop rest orc i).2)) := by
  refine ⟨?_, ?_, ?_⟩
  · intro b0 b1 b2 b3 payload orc i hle hlt
    have hread := read_message_incomplete b0 b1 b2 b3 payload hle hlt
    refine ⟨hread, ?_⟩
    rw [mainLoop_readError _ orc i _ [] hread]
    rfl
  · intro b0 b1 b2 b3 payload rest orc i hlen hle hdec
    have hread : read_message (b0 :: b1 :: b2 :: b3 :: (payload ++ rest)) =
        (.readError (strL "Invalid UTF-8 encoding"), rest) := by
      rw [read_message_frame b0 b1 b2 b3 payload rest hlen hle]
      unfold readPayload
      rw [hdec]
    exact ⟨hread, mainLoop_readError _ orc i _ rest hread⟩
  · intro b0 b1 b2 b3 payload rest orc i chars hlen hle hdec hload
    have hread : read_message (b0 :: b1 :: b2 :: b3 :: (payload ++ rest)) =
        (.readError (strL "Invalid JSON"), rest) := by
      rw [read_message_frame b0 b1 b2 b3 payload rest hlen hle]
      unfold readPayload
      rw [hdec]
      dsimp only
      rw [hload]
    exact ⟨hread, mainLoop_readError _ orc i _ rest hread⟩

/-- Witness for C3 at concrete frames: Scenario D (declared length 10,
six payload bytes before stream end), an invalid UTF-8 payload of one
0xFF byte, and the length-0 frame whose empty payload fails JSON parsing,
each followed by the loop reply. -/
theorem claim_C3_witness :
    (read_message [10, 0, 0, 0, 1, 2, 3, 4, 5, 6] =
      (.readError (strL "Incomplete message: expected 10 bytes, got 6"), []) ∧
     mainLoop [10, 0, 0, 0, 1, 2, 3, 4, 5, 6] (fun _ => .success true) 0 =
      ([errorResp (strL "Incomplete message: expected 10 bytes, got 6")], .eof)) ∧
    (read_message [1, 0, 0, 0, 255] = (.readError (strL "Invalid UTF-8 encoding"), []) ∧
     mainLoop [1, 0, 0, 0, 255] (fun _ => .success true) 0 =
      ([errorResp (strL "Invalid UTF-8 encoding")], .eof)) ∧
    (read_message [0, 0, 0, 0] = (.readError (strL "Invalid JSON"), []) ∧
     mainLoop [0, 0, 0, 0] (fun _ => .success true) 0 =
      ([errorResp (strL "Invalid JSON")], .eof)) := by
  refine ⟨?_, ?_, ?_⟩
  · have h := claim_C3.1 10 0 0 0 [1, 2, 3, 4, 5, 6] (fun _ => .success true) 0
      (by decide) (by decide)
    exact h
  · have h := claim_C3.2.1 1 0 0 0 [255] [] (fun _ => .success true) 0 rfl
      (by decide) rfl
    simpa using h
  · have h := claim_C3.2.2 0 0 0 0 [] [] (fun _ => .success true) 0 [] rfl
      (by decide) rfl rfl
    simpa using h

/-! ## The byte-level output of the loop (write conditions threaded) -/

/-- The bytes that reach stdout when the responses are written in order,
each under the output-stream condition holding at its write. -/
def writeAll (fuel : Nat) (wcs : Nat → WriteCond) : List Json → Nat → List Nat
  | [], _ => []
  | r :: rs, w => write_message fuel r (wcs w) ++ writeAll fuel wcs rs (w + 1)

/-- The loop with its output stream: the responses the loop produces are
written through write_message, whose internal try/except keeps every write
failure away from the loop, so the control flow and the exit are those of
the loop itself under any write conditions. -/
def mainLoopOut (input : List Nat) (orc : Nat → CtrlOutcome) (i : Nat)
    (wcs : Nat → WriteCond) : List Nat × LoopExit :=
  (writeAll 3 wcs (mainLoop input orc i).1 0, (mainLoop input orc i).2)

/-- C9: writing a response is total at its boundary: whatever fails inside
the write body (serialization, the length-prefix or payload write, the
flush), write_message returns exactly the bytes the body managed to put on
the stream and never propagates the failure; hence the exit of the loop
with its output stream attached is the same under every output-stream
condition (a failed write never terminates the command loop), and under
the all-clear condition the full frame is written. -/
theorem claim_C9 :
    (∀ (fuel : Nat) (j : Json) (c : WriteCond),
      write_message fuel j c = (write_message_attempt fuel j c).1) ∧
    (∀ (input : List Nat) (orc : Nat → CtrlOutcome) (i : Nat) (wcs wcs2 : Nat → WriteCond),
      (mainLoopOut input orc i wcs).2 = (mainLoopOut input orc i wcs2).2 ∧
      (mainLoopOut input orc i wcs).2 = (mainLoop input orc i).2) ∧
    (∀ (fuel : Nat) (j : Json), (utf8Encode (dumpsF fuel j)).length < 4294967296 →
      write_message fuel j writeOk =
        packLE (utf8Encode (dumpsF fuel j)).length ++ utf8Encode (dumpsF fuel j)) := by
  refine ⟨?_, ?_, ?_⟩
  · intro fuel j c
    unfold write_message
    rcases h : write_message_attempt fuel j c with ⟨bs, e⟩
    cases e with
    | none => rfl
    | some m => rfl
  · intro input orc i wcs wcs2
    exact ⟨rfl, rfl⟩
  · intro fuel j hlen
    unfold write_message write_message_attempt
    rw [if_pos hlen]
    rfl

/-- Witness for C9 at a concrete response: the success response under the
all-clear stream condition writes the 4-byte prefix 17 followed by the 17
UTF-8 bytes of its JSON text. -/
theorem claim_C9_witness :
    write_message 3 successResp writeOk =
      [17, 0, 0, 0, 123, 34, 115, 117, 99, 99, 101, 115, 115, 34, 58, 32, 116, 114,
        117, 101, 125] := by
  have h := claim_C9.2.2 3 successResp (by decide)
  exact h

/-! ## Well-formedness fuel facts -/

theorem jwf_mono : ∀ (d : Nat) (v : Json) (g : Nat), jwf d v = true → d ≤ g → jwf g v = true := by
  intro d
  induction d with
  | zero => intro v g h _; simp [jwf] at h
  | succ d ih =>
    intro v g h hle
    cases g with
    | zero => omega
    | succ g =>
      cases v with
      | null => rfl
      | bool b => rfl
      | int n => rfl
      | str s => rfl
      | arr xs =>
        simp only [jwf, List.all_eq_true] at h ⊢
        intro x hx
        exact ih x g (h x hx) (by omega)
      | obj fs =>
        simp only [jwf, Bool.and_eq_true, List.all_eq_true] at h ⊢
        exact ⟨h.1, fun q hq => ih q.2 g (h.2 q hq) (by omega)⟩

theorem dumpsF_irrel : ∀ (d : Nat) (v : Json) (g : Nat),
    jwf d v = true → jwf g v = true → dumpsF d v = dumpsF g v := by
  intro d
  induction d with
  | zero => intro v g h _; simp [jwf] at h
  | succ d ih =>
    intro v g h hg
    cases g with
    | zero => simp [jwf] at hg
    | succ g =>
      cases v with
      | null => rfl
      | bool b => cases b <;> rfl
      | int n => rfl
      | str s => rfl
      | arr xs =>
        simp only [jwf, List.all_eq_true] at h hg
        simp only [dumpsF]
        congr 1
        congr 1
        exact congrArg commaJoin (List.map_congr_left (fun x hx => ih x g (h x hx) (hg x hx)))
      | obj fs =>
        simp only [jwf, Bool.and_eq_true, List.all_eq_true] at h hg
        simp only [dumpsF]
        congr 1
        congr 1
        refine congrArg commaJoin (List.map_congr_left (fun q hq => ?_))
        rw [ih q.2 g (h.2 q hq) (hg.2 q hq)]

/-! ## Heads of dumps output -/

theorem ne_char_of_toNat {c d : Char} (h : c.toNat ≠ d.toNat) : c ≠ d :=
  fun he => h (he ▸ rfl)

theorem dumpsF_shape (f : Nat) (v : Json) (h : jwf (f + 1) v = true) :
    ∃ c t, dumpsF (f + 1) v = c :: t ∧ 33 ≤ c.toNat ∧ c.toNat ≠ 93 := by
  cases v with
  | null => exact ⟨'n', _, rfl, by decide, by decide⟩
  | bool b => cases b with
    | true => exact ⟨'t', _, rfl, by decide, by decide⟩
    | false => exact ⟨'f', _, rfl, by decide, by decide⟩
  | str s => exact ⟨'"', _, rfl, by decide, by decide⟩
  | arr xs => exact ⟨'[', _, rfl, by decide, by decide⟩
  | obj fs => exact ⟨'\x7b', _, rfl, by decide, by decide⟩
  | int n =>
    show ∃ c t, intChars n = c :: t ∧ _
    unfold intChars
    by_cases hneg : n < 0
    · rw [if_pos hneg]
      exact ⟨'-', _, rfl, by decide, by decide⟩
    · rw [if_neg hneg]
      obtain ⟨d, t, heq, hd, _⟩ := natDigits_shape (n.toNat + 1) n.toNat (by omega)
      have hc : (Char.ofNat (48 + d)).toNat = 48 + d := charToNat_ofNat_small (by omega)
      exact ⟨_, t, heq, by omega, by omega⟩

theorem skipWs_not_ws (c : Char) (t : List Char) (h : 33 ≤ c.toNat) :
    skipWs (c :: t) = c :: t := by
  have h32 : c ≠ ' ' := ne_char_of_toNat (by simp only [show (' ' : Char).toNat = 32 from rfl]; omega)
  have h9 : c ≠ Char.ofNat 9 := ne_char_of_toNat (by rw [charToNat_ofNat_small (by omega)]; omega)
  have h10 : c ≠ Char.ofNat 10 := ne_char_of_toNat (by rw [charToNat_ofNat_small (by omega)]; omega)
  have h13 : c ≠ Char.ofNat 13 := ne_char_of_toNat (by rw [charToNat_ofNat_small (by omega)]; omega)
  simp only [skipWs]
  rw [if_neg]
  intro hor
  rcases hor with h | h | h | h
  · exact h32 h
  · exact h9 h
  · exact h10 h
  · exact h13 h

theorem skipWs_space (t : List Char) : skipWs (' ' :: t) = skipWs t := by
  simp [skipWs]

theorem skipWs_dumpsF (f : Nat) (v : Json) (h : jwf (f + 1) v = true) (rest : List Char) :
    skipWs (dumpsF (f + 1) v ++ rest) = dumpsF (f + 1) v ++ rest := by
  obtain ⟨c, t, heq, hge, _⟩ := dumpsF_shape f v h
  rw [heq, List.cons_append, skipWs_not_ws c (t ++ rest) hge]

/-! ## The string-literal wrapper and length facts -/

theorem escapeChar_length_pos (c : Char) : 0 < (escapeChar c).length := by
  unfold escapeChar
  split_ifs <;> simp [hex4]

theorem escapeList_length_ge (s : List Char) : s.length ≤ (escapeList s).length := by
  induction s with
  | nil => simp [escapeList]
  | cons c cs ih =>
    simp only [escapeList, List.flatMap_cons, List.length_append, List.length_cons] at ih ⊢
    have := escapeChar_length_pos c
    omega

theorem parseStringBody_escapeList (s rest : List Char) :
    parseStringBody (escapeList s ++ '"' :: rest) = some (s, rest) := by
  unfold parseStringBody
  refine psbF_escapeList s _ rest ?_
  have := escapeList_length_ge s
  simp only [List.length_append, List.length_cons]
  omega

theorem nextSafe_comma (t : List Char) : nextSafe (',' :: t) = true := rfl

theorem nextSafe_bracket (t : List Char) : nextSafe (']' :: t) = true := rfl

theorem nextSafe_brace (t : List Char) : nextSafe ('\x7d' :: t) = true := rfl

/-! ## Parsing the decimal rendering back -/

theorem parseVal_intChars (p : Nat) (n : Int) (rest : List Char) (hr : nextSafe rest = true) :
    parseVal (p + 1) (intChars n ++ rest) = some (.int n, rest) := by
  rw [parseVal.eq_2]
  by_cases hneg : n < 0
  · rw [show intChars n = '-' :: natDigits (n.natAbs + 1) n.natAbs from by
      unfold intChars; rw [if_pos hneg]]
    rw [List.cons_append, skipWs_not_ws '-' _ (by decide)]
    dsimp only
    rw [if_neg (by decide : ¬('-' : Char) = 'n'), if_neg (by decide : ¬('-' : Char) = 't'),
      if_neg (by decide : ¬('-' : Char) = 'f'), if_neg (by decide : ¬('-' : Char) = '"'),
      if_pos rfl]
    rw [parseNat_natDigits n.natAbs n.natAbs rest (by omega) hr]
    simp only [Option.map_some']
    rw [show -((n.natAbs : Nat) : Int) = n from by omega]
  · rw [show intChars n = natDigits (n.toNat + 1) n.toNat from by
      unfold intChars; rw [if_neg hneg]]
    obtain ⟨d, t, heq, hd, _⟩ := natDigits_shape (n.toNat + 1) n.toNat (by omega)
    have hc : (Char.ofNat (48 + d)).toNat = 48 + d := charToNat_ofNat_small (by omega)
    rw [heq, List.cons_append, skipWs_not_ws _ _ (by rw [hc]; omega)]
    dsimp only
    rw [if_neg (ne_char_of_toNat (by rw [hc]; show 48 + d ≠ 110; omega)),
      if_neg (ne_char_of_toNat (by rw [hc]; show 48 + d ≠ 116; omega)),
      if_neg (ne_char_of_toNat (by rw [hc]; show 48 + d ≠ 102; omega)),
      if_neg (ne_char_of_toNat (by rw [hc]; show 48 + d ≠ 34; omega)),
      if_neg (ne_char_of_toNat (by rw [hc]; show 48 + d ≠ 45; omega)),
      if_neg (ne_char_of_toNat (by rw [hc]; show 48 + d ≠ 91; omega)),
      if_neg (ne_char_of_toNat (by rw [hc]; show 48 + d ≠ 123; omega))]
    rw [← List.cons_append, ← heq]
    rw [parseNat_natDigits n.toNat n.toNat rest (by omega) hr]
    simp only [Option.map_some']
    rw [show ((n.toNat : Nat) : Int) = n from by omega]

/-! ## Parsing dumped arrays and objects back -/

theorem dumpsF_ne_nil (f : Nat) (v : Json) (h : jwf (f + 1) v = true) :
    dumpsF (f + 1) v ≠ [] := by
  obtain ⟨c, t, heq, _, _⟩ := dumpsF_shape f v h
  rw [heq]
  exact List.cons_ne_nil c t

theorem commaJoin_count :
    ∀ (L : List (List Char)), (∀ l ∈ L, l ≠ []) → L.length ≤ (commaJoin L).length := by
  intro L
  induction L with
  | nil => simp
  | cons a M ih =>
    intro hne
    cases M with
    | nil =>
      have := hne a (by simp)
      cases a with
      | nil => exact absurd rfl this
      | cons c t => simp [commaJoin]
    | cons b N =>
      have hM := ih (fun l hl => hne l (List.mem_cons_of_mem a hl))
      have ha := hne a (by simp)
      have hlen : 1 ≤ a.length := by
        cases a with
        | nil => exact absurd rfl ha
        | cons c t => simp
      simp only [commaJoin, List.length_append, List.length_cons] at hM ⊢
      omega

theorem parseItems_dumps (d p : Nat)
    (helem : ∀ x, jwf (d + 1) x = true → ∀ r2, nextSafe r2 = true →
      parseVal (p + 1) (dumpsF (d + 1) x ++ r2) = some (x, r2)) :
    ∀ (xs : List Json) (x : Json) (ifuel : Nat) (rest : List Char),
      jwf (d + 1) x = true → (∀ y ∈ xs, jwf (d + 1) y = true) →
      (x :: xs).length ≤ ifuel + 1 →
      parseItems (parseVal (p + 1)) (ifuel + 1)
        (commaJoin ((x :: xs).map (dumpsF (d + 1))) ++ (']' :: rest)) =
        some (x :: xs, rest) := by
  intro xs
  induction xs with
  | nil =>
    intro x ifuel rest hx _ _
    rw [show commaJoin ([x].map (dumpsF (d + 1))) = dumpsF (d + 1) x from rfl]
    rw [parseItems.eq_2]
    rw [helem x hx (']' :: rest) rfl]
    dsimp only
    rw [skipWs_not_ws ']' rest (by decide)]
    dsimp only
    rw [if_neg (by decide : ¬(']' : Char) = ','), if_pos rfl]
  | cons y ys ih =>
    intro x ifuel rest hx hys hlen
    rw [show commaJoin ((x :: y :: ys).map (dumpsF (d + 1))) =
        dumpsF (d + 1) x ++ ',' :: ' ' :: commaJoin ((y :: ys).map (dumpsF (d + 1))) from rfl]
    rw [List.append_assoc]
    simp only [List.cons_append]
    rw [parseItems.eq_2]
    rw [helem x hx
      (',' :: ' ' :: (commaJoin ((y :: ys).map (dumpsF (d + 1))) ++ (']' :: rest))) rfl]
    dsimp only
    rw [skipWs_not_ws ',' _ (by decide)]
    dsimp only
    rw [if_pos rfl]
    have hskip : skipWs (' ' :: (commaJoin ((y :: ys).map (dumpsF (d + 1))) ++ (']' :: rest))) =
        commaJoin ((y :: ys).map (dumpsF (d + 1))) ++ (']' :: rest) := by
      rw [show skipWs (' ' :: (commaJoin ((y :: ys).map (dumpsF (d + 1))) ++ (']' :: rest))) =
          skipWs (commaJoin ((y :: ys).map (dumpsF (d + 1))) ++ (']' :: rest)) from by
        simp [skipWs]]
      cases ys with
      | nil =>
        rw [show commaJoin ([y].map (dumpsF (d + 1))) = dumpsF (d + 1) y from rfl]
        exact skipWs_dumpsF d y (hys y (by simp)) (']' :: rest)
      | cons z zs =>
        rw [show commaJoin ((y :: z :: zs).map (dumpsF (d + 1))) =
            dumpsF (d + 1) y ++ ',' :: ' ' :: commaJoin ((z :: zs).map (dumpsF (d + 1)))
            from rfl]
        rw [List.append_assoc]
        exact skipWs_dumpsF d y (hys y (by simp)) _
    rw [hskip]
    cases ifuel with
    | zero => simp at hlen
    | succ if2 =>
      rw [ih y if2 rest (hys y (by simp)) (fun z hz => hys z (by simp [hz]))
        (by simp at hlen ⊢; omega)]
      rfl

theorem parseFields_dumps (d p : Nat)
    (helem : ∀ x, jwf (d + 1) x = true → ∀ r2, nextSafe r2 = true →
      parseVal (p + 1) (dumpsF (d + 1) x ++ r2) = some (x, r2)) :
    ∀ (fs : List (List Char × Json)) (q : List Char × Json) (ifuel : Nat) (rest : List Char),
      jwf (d + 1) q.2 = true → (∀ w ∈ fs, jwf (d + 1) w.2 = true) →
      (q :: fs).length ≤ ifuel + 1 →
      parseFields (parseVal (p + 1)) (ifuel + 1)
        (commaJoin ((q :: fs).map (fun w =>
          '"' :: (escapeList w.1 ++ '"' :: ':' :: ' ' :: dumpsF (d + 1) w.2))) ++
          ('\x7d' :: rest)) =
        some (q :: fs, rest) := by
  intro fs
  induction fs with
  | nil =>
    intro q ifuel rest hq _ _
    obtain ⟨k, v⟩ := q
    rw [show commaJoin ([((k, v) : List Char × Json)].map (fun w =>
        '"' :: (escapeList w.1 ++ '"' :: ':' :: ' ' :: dumpsF (d + 1) w.2))) =
        '"' :: (escapeList k ++ '"' :: ':' :: ' ' :: dumpsF (d + 1) v) from rfl]
    simp only [List.cons_append, List.append_assoc]
    rw [parseFields.eq_3]
    rw [if_pos rfl]
    rw [parseStringBody_escapeList]
    dsimp only
    rw [skipWs_not_ws ':' _ (by decide)]
    dsimp only
    rw [if_pos rfl]
    rw [skipWs_space]
    rw [skipWs_dumpsF d v hq ('\x7d' :: rest)]
    rw [helem v hq ('\x7d' :: rest) (nextSafe_brace _)]
    dsimp only
    rw [skipWs_not_ws '\x7d' rest (by decide)]
    dsimp only
    rw [if_neg (by decide : ¬('\x7d' : Char) = ','), if_pos rfl]
  | cons w ws ih =>
    intro q ifuel rest hq hws hlen
    obtain ⟨k, v⟩ := q
    rw [show commaJoin ((((k, v) : List Char × Json) :: w :: ws).map (fun u =>
        '"' :: (escapeList u.1 ++ '"' :: ':' :: ' ' :: dumpsF (d + 1) u.2))) =
        ('"' :: (escapeList k ++ '"' :: ':' :: ' ' :: dumpsF (d + 1) v)) ++
          ',' :: ' ' :: commaJoin ((w :: ws).map (fun u =>
            '"' :: (escapeList u.1 ++ '"' :: ':' :: ' ' :: dumpsF (d + 1) u.2))) from rfl]
    simp only [List.cons_append, List.append_assoc]
    rw [parseFields.eq_3]
    rw [if_pos rfl]
    rw [parseStringBody_escapeList]
    dsimp only
    rw [skipWs_not_ws ':' _ (by decide)]
    dsimp only
    rw [if_pos rfl]
    rw [skipWs_space]
    rw [skipWs_dumpsF d v hq _]
    rw [helem v hq _ (nextSafe_comma _)]
    dsimp only
    rw [skipWs_not_ws ',' _ (by decide)]
    dsimp only
    rw [if_pos rfl]
    rw [skipWs_space]
    have hskip : skipWs (commaJoin ((w :: ws).map (fun u =>
        '"' :: (escapeList u.1 ++ '"' :: ':' :: ' ' :: dumpsF (d + 1) u.2))) ++
        '\x7d' :: rest) =
        commaJoin ((w :: ws).map (fun u =>
          '"' :: (escapeList u.1 ++ '"' :: ':' :: ' ' :: dumpsF (d + 1) u.2))) ++
        '\x7d' :: rest := by
      cases ws with
      | nil =>
        simp only [List.map_cons, List.map_nil, commaJoin, List.cons_append]
        exact skipWs_not_ws '"' _ (by decide)
      | cons u us =>
        simp only [List.map_cons, commaJoin, List.cons_append, List.append_assoc]
        exact skipWs_not_ws '"' _ (by decide)
    rw [hskip]
    cases ifuel with
    | zero => simp at hlen
    | succ if2 =>
      rw [ih w if2 rest (hws w (by simp)) (fun u hu => hws u (by simp [hu]))
        (by simp at hlen ⊢; omega)]
      rfl

/-! ## Rebuilding a distinct-key object by dict insertion -/

theorem foldl_insertUpdate :
    ∀ (fs : List (List Char × Json)) (acc : List (List Char × Json)),
      keysDistinct fs = true → (∀ q ∈ fs, ∀ w ∈ acc, ¬ w.1 = q.1) →
      fs.foldl (fun a kv => insertUpdate a kv.1 kv.2) acc = acc ++ fs := by
  intro fs
  induction fs with
  | nil => intro acc _ _; simp
  | cons q t ih =>
    intro acc hdist hdisj
    obtain ⟨k, v⟩ := q
    simp only [keysDistinct, Bool.and_eq_true, List.all_eq_true] at hdist
    have hfresh : acc.any (fun w => w.1 = k) = false := by
      rw [List.any_eq_false]
      intro w hw
      simpa using hdisj (k, v) (by simp) w hw
    simp only [List.foldl_cons]
    rw [show insertUpdate acc k v = acc ++ [(k, v)] from by
      unfold insertUpdate
      rw [hfresh]
      simp]
    rw [ih (acc ++ [(k, v)]) hdist.2 ?_]
    · simp
    · intro u hu w hw
      rcases List.mem_append.1 hw with hwa | hwk
      · exact hdisj u (by simp [hu]) w hwa
      · have hwkv : w = (k, v) := by simpa using hwk
        subst hwkv
        have hne : ¬ u.1 = k := by simpa using hdist.1 u hu
        exact fun hc => hne hc.symm

/-! ## The round trip of json.dumps through json.loads -/

theorem parseVal_dumps :
    ∀ (df : Nat) (v : Json) (pf : Nat) (rest : List Char),
      jwf df v = true → df ≤ pf → nextSafe rest = true →
      parseVal pf (dumpsF df v ++ rest) = some (v, rest) := by
  intro df
  induction df with
  | zero => intro v pf rest h _ _; simp [jwf] at h
  | succ d ih =>
    intro v pf rest h hdp hr
    cases pf with
    | zero => omega
    | succ p =>
    cases v with
    | null =>
      rw [show dumpsF (d + 1) Json.null = 'n' :: 'u' :: 'l' :: 'l' :: [] from rfl]
      simp only [List.cons_append, List.nil_append]
      rw [parseVal.eq_2, skipWs_not_ws 'n' _ (by decide)]
      dsimp only
      rw [if_pos rfl]
      rfl
    | bool b =>
      cases b with
      | true =>
        rw [show dumpsF (d + 1) (Json.bool true) = 't' :: 'r' :: 'u' :: 'e' :: [] from rfl]
        simp only [List.cons_append, List.nil_append]
        rw [parseVal.eq_2, skipWs_not_ws 't' _ (by decide)]
        dsimp only
        rw [if_neg (by decide : ¬('t' : Char) = 'n'), if_pos rfl]
        rfl
      | false =>
        rw [show dumpsF (d + 1) (Json.bool false) = 'f' :: 'a' :: 'l' :: 's' :: 'e' :: [] from rfl]
        simp only [List.cons_append, List.nil_append]
        rw [parseVal.eq_2, skipWs_not_ws 'f' _ (by decide)]
        dsimp only
        rw [if_neg (by decide : ¬('f' : Char) = 'n'), if_neg (by decide : ¬('f' : Char) = 't'),
          if_pos rfl]
        rfl
    | int n =>
      exact parseVal_intChars p n rest hr
    | str s =>
      rw [show dumpsF (d + 1) (Json.str s) = '"' :: escapeList s ++ ['"'] from rfl]
      simp only [List.cons_append, List.append_assoc, List.singleton_append, List.nil_append]
      rw [parseVal.eq_2, skipWs_not_ws '"' _ (by decide)]
      dsimp only
      rw [if_neg (by decide : ¬('"' : Char) = 'n'), if_neg (by decide : ¬('"' : Char) = 't'),
        if_neg (by decide : ¬('"' : Char) = 'f'), if_pos rfl]
      rw [parseStringBody_escapeList]
      rfl
    | arr xs =>
      simp only [jwf, List.all_eq_true] at h
      rw [show dumpsF (d + 1) (Json.arr xs) =
        '[' :: commaJoin (xs.map (dumpsF d)) ++ [']'] from rfl]
      simp only [List.cons_append, List.append_assoc, List.singleton_append, List.nil_append]
      rw [parseVal.eq_2, skipWs_not_ws '[' _ (by decide)]
      dsimp only
      rw [if_neg (by decide : ¬('[' : Char) = 'n'), if_neg (by decide : ¬('[' : Char) = 't'),
        if_neg (by decide : ¬('[' : Char) = 'f'), if_neg (by decide : ¬('[' : Char) = '"'),
        if_neg (by decide : ¬('[' : Char) = '-'), if_pos rfl]
      cases xs with
      | nil =>
        simp only [List.map_nil]
        rw [show commaJoin [] = ([] : List Char) from rfl]
        simp only [List.nil_append]
        rw [skipWs_not_ws ']' _ (by decide)]
        dsimp only
        rw [if_pos rfl]
      | cons x xs2 =>
        have hx := h x (by simp)
        have hd1 : 1 ≤ d := by
          cases d with
          | zero => simp [jwf] at hx
          | succ d2 => omega
        cases d with
        | zero => omega
        | succ d2 =>
        cases p with
        | zero => omega
        | succ p2 =>
        have helem : ∀ y, jwf (d2 + 1) y = true → ∀ r2, nextSafe r2 = true →
            parseVal (p2 + 1) (dumpsF (d2 + 1) y ++ r2) = some (y, r2) :=
          fun y hy r2 hr2 => ih y (p2 + 1) r2 hy (by omega) hr2
        obtain ⟨c, t, heq, hge, h93⟩ := dumpsF_shape d2 x hx
        have hCJhead : ∃ T, commaJoin ((x :: xs2).map (dumpsF (d2 + 1))) ++ (']' :: rest) =
            c :: (t ++ T) ∧ dumpsF (d2 + 1) x ++ T =
              commaJoin ((x :: xs2).map (dumpsF (d2 + 1))) ++ (']' :: rest) := by
          cases xs2 with
          | nil =>
            refine ⟨']' :: rest, ?_, rfl⟩
            rw [show commaJoin ([x].map (dumpsF (d2 + 1))) = dumpsF (d2 + 1) x from rfl, heq]
            simp [List.cons_append]
          | cons y ys =>
            refine ⟨',' :: ' ' :: (commaJoin ((y :: ys).map (dumpsF (d2 + 1))) ++ (']' :: rest)), ?_, ?_⟩
            · rw [show commaJoin ((x :: y :: ys).map (dumpsF (d2 + 1))) =
                dumpsF (d2 + 1) x ++ ',' :: ' ' :: commaJoin ((y :: ys).map (dumpsF (d2 + 1)))
                from rfl, heq]
              simp [List.cons_append, List.append_assoc]
            · rw [show commaJoin ((x :: y :: ys).map (dumpsF (d2 + 1))) =
                dumpsF (d2 + 1) x ++ ',' :: ' ' :: commaJoin ((y :: ys).map (dumpsF (d2 + 1)))
                from rfl]
              simp [List.cons_append, List.append_assoc]
        obtain ⟨T, hT1, hT2⟩ := hCJhead
        have hcount : (x :: xs2).length ≤
            (commaJoin ((x :: xs2).map (dumpsF (d2 + 1))) ++ (']' :: rest)).length := by
          have h1 : ∀ l ∈ (x :: xs2).map (dumpsF (d2 + 1)), l ≠ [] := by
            intro l hl
            obtain ⟨y, hy, hyl⟩ := List.mem_map.1 hl
            rw [← hyl]
            exact dumpsF_ne_nil d2 y (h y hy)
          have h2 := commaJoin_count _ h1
          rw [List.length_map] at h2
          simp only [List.length_append, List.length_cons] at h2 ⊢
          omega
        rw [hT1, skipWs_not_ws c _ (by omega)]
        dsimp only
        rw [if_neg (ne_char_of_toNat (show c.toNat ≠ (']' : Char).toNat from h93))]
        rw [← hT1]
        rw [parseItems_dumps d2 p2 helem xs2 x
          ((commaJoin ((x :: xs2).map (dumpsF (d2 + 1))) ++ (']' :: rest)).length) rest hx
          (fun y hy => h y (by simp [hy])) (Nat.le_succ_of_le hcount)]
        rfl
    | obj fs =>
      simp only [jwf, Bool.and_eq_true, List.all_eq_true] at h
      obtain ⟨hdist, hvals⟩ := h
      rw [show dumpsF (d + 1) (Json.obj fs) =
        '\x7b' :: commaJoin (fs.map (fun p =>
          '"' :: escapeList p.1 ++ '"' :: ':' :: ' ' :: dumpsF d p.2)) ++ ['\x7d'] from rfl]
      simp only [List.cons_append, List.append_assoc, List.singleton_append, List.nil_append]
      rw [parseVal.eq_2, skipWs_not_ws '\x7b' _ (by decide)]
      dsimp only
      rw [if_neg (by decide : ¬('\x7b' : Char) = 'n'), if_neg (by decide : ¬('\x7b' : Char) = 't'),
        if_neg (by decide : ¬('\x7b' : Char) = 'f'), if_neg (by decide : ¬('\x7b' : Char) = '"'),
        if_neg (by decide : ¬('\x7b' : Char) = '-'), if_neg (by decide : ¬('\x7b' : Char) = '['),
        if_pos rfl]
      cases fs with
      | nil =>
        simp only [List.map_nil]
        rw [show commaJoin [] = ([] : List Char) from rfl]
        simp only [List.nil_append]
        rw [skipWs_not_ws '\x7d' _ (by decide)]
        dsimp only
        rw [if_pos rfl]
      | cons q fs2 =>
        have hq := hvals q (by simp)
        have hd1 : 1 ≤ d := by
          cases d with
          | zero => simp [jwf] at hq
          | succ d2 => omega
        cases d with
        | zero => omega
        | succ d2 =>
        cases p with
        | zero => omega
        | succ p2 =>
        have helem : ∀ y, jwf (d2 + 1) y = true → ∀ r2, nextSafe r2 = true →
            parseVal (p2 + 1) (dumpsF (d2 + 1) y ++ r2) = some (y, r2) :=
          fun y hy r2 hr2 => ih y (p2 + 1) r2 hy (by omega) hr2
        have hshape : ∃ T, commaJoin ((q :: fs2).map (fun w =>
            '"' :: (escapeList w.1 ++ '"' :: ':' :: ' ' :: dumpsF (d2 + 1) w.2))) ++
            ('\x7d' :: rest) = '"' :: T := by
          cases fs2 with
          | nil =>
            simp only [List.map_cons, List.map_nil, commaJoin, List.cons_append]
            exact ⟨_, rfl⟩
          | cons u us =>
            simp only [List.map_cons, commaJoin, List.cons_append, List.append_assoc]
            exact ⟨_, rfl⟩
        obtain ⟨T, hT⟩ := hshape
        have hcount : (q :: fs2).length ≤
            (commaJoin ((q :: fs2).map (fun w =>
              '"' :: (escapeList w.1 ++ '"' :: ':' :: ' ' :: dumpsF (d2 + 1) w.2))) ++
              ('\x7d' :: rest)).length := by
          have h1 : ∀ l ∈ (q :: fs2).map (fun w =>
              '"' :: (escapeList w.1 ++ '"' :: ':' :: ' ' :: dumpsF (d2 + 1) w.2)), l ≠ [] := by
            intro l hl
            obtain ⟨y, hy, hyl⟩ := List.mem_map.1 hl
            rw [← hyl]
            exact List.cons_ne_nil _ _
          have h2 := commaJoin_count _ h1
          rw [List.length_map] at h2
          simp only [List.length_append, List.length_cons] at h2 ⊢
          omega
        rw [hT, skipWs_not_ws '"' _ (by decide)]
        dsimp only
        rw [if_neg (by decide : ¬('"' : Char) = '\x7d')]
        rw [← hT]
        rw [parseFields_dumps d2 p2 helem fs2 q
          ((commaJoin ((q :: fs2).map (fun w =>
            '"' :: (escapeList w.1 ++ '"' :: ':' :: ' ' :: dumpsF (d2 + 1) w.2))) ++
            ('\x7d' :: rest)).length) rest hq
          (fun u hu => hvals u (by simp [hu])) (Nat.le_succ_of_le hcount)]
        simp only [Option.map_some']
        rw [foldl_insertUpdate (q :: fs2) [] hdist (by simp)]
        rw [List.nil_append]

theorem commaJoin_length_mem :
    ∀ (L : List (List Char)) (l : List Char), l ∈ L → l.length ≤ (commaJoin L).length := by
  intro L
  induction L with
  | nil => intro l hl; simp at hl
  | cons a M ih =>
    intro l hl
    cases M with
    | nil =>
      have : l = a := by simpa using hl
      subst this
      simp [commaJoin]
    | cons b N =>
      rcases List.mem_cons.1 hl with rfl | hl2
      · simp only [commaJoin, List.length_append, List.length_cons]
        omega
      · have := ih l hl2
        simp only [commaJoin, List.length_append, List.length_cons]
        omega

theorem jwf_dumps_fuel :
    ∀ (df : Nat) (v : Json), jwf df v = true → jwf ((dumpsF df v).length + 1) v = true := by
  intro df
  induction df with
  | zero => intro v h; simp [jwf] at h
  | succ d ih =>
    intro v h
    cases v with
    | null => rfl
    | bool b => cases b <;> rfl
    | int n => rfl
    | str s => rfl
    | arr xs =>
      simp only [jwf, List.all_eq_true] at h
      simp only [jwf, List.all_eq_true]
      intro x hx
      have hx2 := ih x (h x hx)
      refine jwf_mono _ x _ hx2 ?_
      have hmem : dumpsF d x ∈ xs.map (dumpsF d) := List.mem_map_of_mem _ hx
      have := commaJoin_length_mem _ _ hmem
      rw [show dumpsF (d + 1) (Json.arr xs) =
        '[' :: commaJoin (xs.map (dumpsF d)) ++ [']'] from rfl]
      simp only [List.length_append, List.length_cons, List.length_nil]
      omega
    | obj fs =>
      simp only [jwf, Bool.and_eq_true, List.all_eq_true] at h
      simp only [jwf, Bool.and_eq_true, List.all_eq_true]
      refine ⟨h.1, fun q hq => ?_⟩
      have hq2 := ih q.2 (h.2 q hq)
      refine jwf_mono _ q.2 _ hq2 ?_
      have hmem : ('"' :: escapeList q.1 ++ '"' :: ':' :: ' ' :: dumpsF d q.2) ∈
          fs.map (fun p => '"' :: escapeList p.1 ++ '"' :: ':' :: ' ' :: dumpsF d p.2) := by
        refine List.mem_map.2 ⟨q, hq, rfl⟩
      have := commaJoin_length_mem _ _ hmem
      rw [show dumpsF (d + 1) (Json.obj fs) =
        '\x7b' :: commaJoin (fs.map (fun p =>
          '"' :: escapeList p.1 ++ '"' :: ':' :: ' ' :: dumpsF d p.2)) ++ ['\x7d'] from rfl]
      simp only [List.length_append, List.length_cons, List.length_nil] at this ⊢
      omega

theorem loads_dumps (df : Nat) (v : Json) (h : jwf df v = true) :
    loads (dumpsF df v) = some v := by
  have hshift := jwf_dumps_fuel df v h
  have hirr := dumpsF_irrel df v ((dumpsF df v).length + 1) h hshift
  have hmain := parseVal_dumps ((dumpsF df v).length + 1) v ((dumpsF df v).length + 1) []
    hshift (Nat.le_refl _) rfl
  rw [← hirr] at hmain
  rw [List.append_nil] at hmain
  unfold loads
  rw [hmain]
  dsimp only
  rw [if_pos (show skipWs [] = ([] : List Char) from rfl)]

/-! ## The dumps output is ASCII, and ASCII survives the UTF-8 codec -/

theorem natDigits_ascii : ∀ (f n : Nat), ∀ c ∈ natDigits f n, c.toNat < 128 := by
  intro f
  induction f with
  | zero => intro n c hc; simp [natDigits] at hc
  | succ f ih =>
    intro n c hc
    by_cases h10 : n < 10
    · simp only [natDigits, if_pos h10, List.mem_singleton] at hc
      subst hc
      rw [charToNat_ofNat_small (by omega)]
      omega
    · simp only [natDigits, if_neg h10, List.mem_append, List.mem_singleton] at hc
      rcases hc with hc | hc
      · exact ih (n / 10) c hc
      · subst hc
        rw [charToNat_ofNat_small (by omega)]
        omega

theorem intChars_ascii (n : Int) : ∀ c ∈ intChars n, c.toNat < 128 := by
  intro c hc
  unfold intChars at hc
  by_cases hneg : n < 0
  · rw [if_pos hneg] at hc
    rcases List.mem_cons.1 hc with rfl | hc2
    · decide
    · exact natDigits_ascii _ _ c hc2
  · rw [if_neg hneg] at hc
    exact natDigits_ascii _ _ c hc

theorem hexChar_ascii (d : Nat) (h : d < 16) : (hexChar d).toNat < 128 := by
  unfold hexChar
  by_cases h10 : d < 10
  · rw [if_pos h10, charToNat_ofNat_small (by omega)]
    omega
  · rw [if_neg h10, charToNat_ofNat_small (by omega)]
    omega

theorem hex4_ascii (n : Nat) : ∀ c ∈ hex4 n, c.toNat < 128 := by
  intro c hc
  simp only [hex4, List.mem_cons, List.mem_singleton, List.not_mem_nil, or_false] at hc
  rcases hc with rfl | rfl | rfl | rfl <;> exact hexChar_ascii _ (by omega)

theorem escapeChar_ascii (x : Char) : ∀ c ∈ escapeChar x, c.toNat < 128 := by
  intro c hc
  unfold escapeChar at hc
  split_ifs at hc with h1 h2 h3 h4 h5 h6 h7 h8 h9 h10
  · rcases (by simpa using hc : c = '\\' ∨ c = '"') with rfl | rfl <;> decide
  · rcases (by simpa using hc : c = '\\' ∨ c = '\\') with rfl | rfl <;> decide
  · rcases (by simpa using hc : c = '\\' ∨ c = 'b') with rfl | rfl <;> decide
  · rcases (by simpa using hc : c = '\\' ∨ c = 't') with rfl | rfl <;> decide
  · rcases (by simpa using hc : c = '\\' ∨ c = 'n') with rfl | rfl <;> decide
  · rcases (by simpa using hc : c = '\\' ∨ c = 'f') with rfl | rfl <;> decide
  · rcases (by simpa using hc : c = '\\' ∨ c = 'r') with rfl | rfl <;> decide
  · simp only [List.mem_cons] at hc
    rcases hc with rfl | rfl | hc
    · decide
    · decide
    · exact hex4_ascii _ c hc
  · have : c = x := by simpa using hc
    subst this
    omega
  · simp only [List.mem_cons] at hc
    rcases hc with rfl | rfl | hc
    · decide
    · decide
    · exact hex4_ascii _ c hc
  · simp only [List.cons_append, List.mem_cons, List.mem_append] at hc
    rcases hc with rfl | rfl | hc | rfl | rfl | hc
    · decide
    · decide
    · exact hex4_ascii _ c hc
    · decide
    · decide
    · exact hex4_ascii _ c hc

theorem escapeList_ascii (s : List Char) : ∀ c ∈ escapeList s, c.toNat < 128 := by
  intro c hc
  obtain ⟨x, _, hcx⟩ := List.mem_flatMap.1 hc
  exact escapeChar_ascii x c hcx

theorem mem_commaJoin :
    ∀ (L : List (List Char)) (c : Char), c ∈ commaJoin L →
      (∃ l ∈ L, c ∈ l) ∨ c = ',' ∨ c = ' ' := by
  intro L
  induction L with
  | nil => intro c hc; simp [commaJoin] at hc
  | cons a M ih =>
    intro c hc
    cases M with
    | nil =>
      exact Or.inl ⟨a, by simp, by simpa [commaJoin] using hc⟩
    | cons b N =>
      simp only [commaJoin, List.mem_append, List.mem_cons] at hc
      rcases hc with hc | rfl | rfl | hc
      · exact Or.inl ⟨a, by simp, hc⟩
      · exact Or.inr (Or.inl rfl)
      · exact Or.inr (Or.inr rfl)
      · rcases ih c hc with ⟨l, hl, hcl⟩ | h
        · exact Or.inl ⟨l, List.mem_cons_of_mem a hl, hcl⟩
        · exact Or.inr h

theorem dumpsF_ascii : ∀ (df : Nat) (v : Json), ∀ c ∈ dumpsF df v, c.toNat < 128 := by
  intro df
  induction df with
  | zero => intro v c hc; simp [dumpsF] at hc
  | succ d ih =>
    intro v c hc
    cases v with
    | null =>
      rcases (by simpa [dumpsF, strL] using hc :
        c = 'n' ∨ c = 'u' ∨ c = 'l' ∨ c = 'l') with rfl | rfl | rfl | rfl <;> decide
    | bool b =>
      cases b with
      | true =>
        rcases (by simpa [dumpsF, strL] using hc :
          c = 't' ∨ c = 'r' ∨ c = 'u' ∨ c = 'e') with rfl | rfl | rfl | rfl <;> decide
      | false =>
        rcases (by simpa [dumpsF, strL] using hc :
          c = 'f' ∨ c = 'a' ∨ c = 'l' ∨ c = 's' ∨ c = 'e') with
          rfl | rfl | rfl | rfl | rfl <;> decide
    | int n => exact intChars_ascii n c hc
    | str s =>
      simp only [dumpsF, List.mem_cons, List.mem_append, List.mem_singleton] at hc
      rcases hc with (rfl | hc) | rfl | hnil
      · decide
      · exact escapeList_ascii s c hc
      · decide
      · simp at hnil
    | arr xs =>
      simp only [dumpsF, List.mem_cons, List.mem_append, List.mem_singleton] at hc
      rcases hc with (rfl | hc) | rfl | hnil
      · decide
      · rcases mem_commaJoin _ c hc with ⟨l, hl, hcl⟩ | rfl | rfl
        · obtain ⟨x, hx, hxl⟩ := List.mem_map.1 hl
          rw [← hxl] at hcl
          exact ih x c hcl
        · decide
        · decide
      · decide
      · simp at hnil
    | obj fs =>
      simp only [dumpsF, List.mem_cons, List.mem_append, List.mem_singleton] at hc
      rcases hc with (rfl | hc) | rfl | hnil
      · decide
      · rcases mem_commaJoin _ c hc with ⟨l, hl, hcl⟩ | rfl | rfl
        · obtain ⟨q, hq, hql⟩ := List.mem_map.1 hl
          rw [← hql] at hcl
          simp only [List.mem_cons, List.mem_append] at hcl
          rcases hcl with (rfl | hcl) | rfl | rfl | rfl | hcl
          · decide
          · exact escapeList_ascii q.1 c hcl
          · decide
          · decide
          · decide
          · exact ih q.2 c hcl
        · decide
        · decide
      · decide
      · simp at hnil

theorem utf8Encode_ascii_length (s : List Char) (h : ∀ c ∈ s, c.toNat < 128) :
    (utf8Encode s).length = s.length := by
  induction s with
  | nil => rfl
  | cons c cs ih =>
    rw [show utf8Encode (c :: cs) = utf8Char c ++ utf8Encode cs from rfl]
    rw [show utf8Char c = [c.toNat] from by simp only [utf8Char]; rw [if_pos (h c (by simp))]]
    simp only [List.cons_append, List.nil_append, List.length_cons]
    rw [ih (fun x hx => h x (by simp [hx]))]

theorem utf8F_ascii :
    ∀ (s : List Char) (fuel : Nat), s.length ≤ fuel → (∀ c ∈ s, c.toNat < 128) →
      utf8DecodeF fuel (utf8Encode s) = some s := by
  intro s
  induction s with
  | nil =>
    intro fuel _ _
    cases fuel <;> rfl
  | cons c cs ih =>
    intro fuel hlen h
    cases fuel with
    | zero => simp at hlen
    | succ f =>
      have hc := h c (by simp)
      rw [show utf8Encode (c :: cs) = utf8Char c ++ utf8Encode cs from rfl]
      rw [show utf8Char c = [c.toNat] from by simp only [utf8Char]; rw [if_pos hc]]
      simp only [List.cons_append, List.nil_append]
      rw [utf8DecodeF.eq_3]
      rw [show utf8DecodeOne (c.toNat :: utf8Encode cs) =
        some (Char.ofNat c.toNat, utf8Encode cs) from by
        simp only [utf8DecodeOne]; rw [if_pos hc]]
      dsimp only
      rw [ih f (by simp at hlen; omega) (fun x hx => h x (by simp [hx]))]
      simp only [Option.map_some']
      rw [Char.ofNat_toNat]

theorem utf8_ascii_roundtrip (s : List Char) (h : ∀ c ∈ s, c.toNat < 128) :
    utf8Decode (utf8Encode s) = some s := by
  unfold utf8Decode
  refine utf8F_ascii s _ ?_ h
  rw [utf8Encode_ascii_length s h]

/-! ## Framing round trip: the encoder output fed back through the decoder -/

theorem unpack_packLE (n : Nat) (h : n < 4294967296) :
    unpackLE (n % 256) (n / 256 % 256) (n / 65536 % 256) (n / 16777216 % 256) = n := by
  unfold unpackLE
  omega

theorem write_message_attempt_writeOk (fuel : Nat) (j : Json)
    (h : (utf8Encode (dumpsF fuel j)).length < 4294967296) :
    write_message_attempt fuel j writeOk =
      (packLE (utf8Encode (dumpsF fuel j)).length ++ utf8Encode (dumpsF fuel j), none) := by
  simp only [write_message_attempt, writeOk]
  rw [if_pos h]
  simp only [if_true]

theorem write_message_writeOk (fuel : Nat) (j : Json)
    (h : (utf8Encode (dumpsF fuel j)).length < 4294967296) :
    write_message fuel j writeOk =
      packLE (utf8Encode (dumpsF fuel j)).length ++ utf8Encode (dumpsF fuel j) := by
  unfold write_message
  rw [write_message_attempt_writeOk fuel j h]

theorem read_message_encoded (fuel : Nat) (v : Json) (rest : List Nat)
    (hwf : jwf fuel v = true)
    (hsize : (utf8Encode (dumpsF fuel v)).length ≤ 1048576) :
    read_message (write_message fuel v writeOk ++ rest) = (.ok v, rest) := by
  have h32 : (utf8Encode (dumpsF fuel v)).length < 4294967296 := by omega
  rw [write_message_writeOk fuel v h32]
  rw [List.append_assoc]
  rw [show packLE (utf8Encode (dumpsF fuel v)).length ++ (utf8Encode (dumpsF fuel v) ++ rest) =
    (utf8Encode (dumpsF fuel v)).length % 256 ::
    (utf8Encode (dumpsF fuel v)).length / 256 % 256 ::
    (utf8Encode (dumpsF fuel v)).length / 65536 % 256 ::
    (utf8Encode (dumpsF fuel v)).length / 16777216 % 256 ::
    (utf8Encode (dumpsF fuel v) ++ rest) from rfl]
  have hup := unpack_packLE (utf8Encode (dumpsF fuel v)).length h32
  rw [read_message_frame _ _ _ _ _ rest (by rw [hup]) (by rw [hup]; omega)]
  unfold readPayload
  rw [utf8_ascii_roundtrip _ (dumpsF_ascii fuel v)]
  dsimp only
  rw [loads_dumps fuel v hwf]

/-- The byte stream carrying one encoded frame per listed response. -/
def framesOf (fuel : Nat) : List Json → List Nat
  | [] => []
  | v :: vs => write_message fuel v writeOk ++ framesOf fuel vs

/-- The responses dispatch emits for a message sequence, threading the
collaborator call count. -/
def runDispatch (orc : Nat → CtrlOutcome) : Nat → List Json → List Json
  | _, [] => []
  | i, v :: vs =>
    let d := process_command v orc i
    d.sent ++ runDispatch orc d.idx vs

/-- A concrete mute request used as a demonstration input. -/
def demoCmd : Json := Json.obj [(strL "command", Json.str (strL "mute"))]

theorem mainLoop_frames (fuel : Nat) (orc : Nat → CtrlOutcome)
    (hsafe : ∀ k, (orc k).isRaise = false) :
    ∀ (msgs : List Json) (i : Nat),
      (∀ v ∈ msgs, jwf fuel v = true ∧ (utf8Encode (dumpsF fuel v)).length ≤ 1048576) →
      mainLoop (framesOf fuel msgs) orc i = (runDispatch orc i msgs, .eof) ∧
      (runDispatch orc i msgs).length = msgs.length := by
  intro msgs
  induction msgs with
  | nil =>
    intro i _
    exact ⟨rfl, rfl⟩
  | cons v vs ih =>
    intro i hgood
    obtain ⟨hwf, hsz⟩ := hgood v (List.mem_cons_self v vs)
    have hread : read_message (framesOf fuel (v :: vs)) = (.ok v, framesOf fuel vs) := by
      rw [show framesOf fuel (v :: vs) = write_message fuel v writeOk ++ framesOf fuel vs
        from rfl]
      exact read_message_encoded fuel v (framesOf fuel vs) hwf hsz
    rcases process_command_cases v orc i with ⟨hexn, hone⟩ | ⟨m, horc, _⟩
    · obtain ⟨hml, hlen⟩ := ih (process_command v orc i).idx
        (fun w hw => hgood w (List.mem_cons_of_mem v hw))
      have hrun : runDispatch orc i (v :: vs) =
          (process_command v orc i).sent ++
            runDispatch orc (process_command v orc i).idx vs := rfl
      constructor
      · rw [mainLoop_ok _ orc i v _ hread hexn, hml, hrun]
      · rw [hrun, List.length_append, hone, hlen, List.length_cons]
        omega
    · exfalso
      have hk := hsafe i
      rw [horc] at hk
      simp [CtrlOutcome.isRaise] at hk

/-- C7: every successfully decoded message that dispatch handles without an
unexpected collaborator exception produces exactly one response, and a
stream carrying k sequential well-formed encoded requests makes the loop
emit exactly the k dispatch responses, in request order, before the clean
end-of-stream exit. -/
theorem claim_C7 (fuel : Nat) (msgs : List Json) (orc : Nat → CtrlOutcome) (i : Nat)
    (hsafe : ∀ k, (orc k).isRaise = false)
    (hgood : ∀ v ∈ msgs, jwf fuel v = true ∧ (utf8Encode (dumpsF fuel v)).length ≤ 1048576) :
    (∀ (j : Json) (k : Nat), (process_command j orc k).exn = none →
      (process_command j orc k).sent.length = 1) ∧
    mainLoop (framesOf fuel msgs) orc i = (runDispatch orc i msgs, .eof) ∧
    (runDispatch orc i msgs).length = msgs.length := by
  refine ⟨?_, mainLoop_frames fuel orc hsafe msgs i hgood⟩
  intro j k hj
  rcases process_command_cases j orc k with ⟨_, h1⟩ | ⟨m, _, heq⟩
  · exact h1
  · rw [heq] at hj
    exact Option.noConfusion hj

/-- C7 (witness): two encoded mute requests on one stream produce exactly
the two success responses, in order, and the loop exits cleanly. -/
theorem claim_C7_witness :
    mainLoop (framesOf 2 [demoCmd, demoCmd]) (fun _ => CtrlOutcome.success false) 0 =
      (runDispatch (fun _ => CtrlOutcome.success false) 0 [demoCmd, demoCmd],
        LoopExit.eof) ∧
    (runDispatch (fun _ => CtrlOutcome.success false) 0 [demoCmd, demoCmd]).length = 2 := by
  have h := claim_C7 2 [demoCmd, demoCmd] (fun _ => CtrlOutcome.success false) 0
    (fun _ => rfl)
    (by
      intro v hv
      simp only [List.mem_cons, List.mem_singleton] at hv
      rcases hv with rfl | rfl | hnil
      · exact ⟨rfl, by decide⟩
      · exact ⟨rfl, by decide⟩
      · simp at hnil)
  exact ⟨h.2.1, h.2.2⟩

/-! ## C8: the one megabyte cap breaks the unconditional round trip -/

theorem escapeList_replicate (n : Nat) :
    escapeList (List.replicate n 'a') = List.replicate n 'a' := by
  induction n with
  | zero => rfl
  | succ n ih =>
    rw [List.replicate_succ]
    rw [show escapeList ('a' :: List.replicate n 'a') =
      escapeChar 'a' ++ escapeList (List.replicate n 'a') from rfl]
    rw [ih]
    rfl

/-- An error response whose text alone exceeds the 1 MiB frame cap. -/
def bigResp : Json := errorResp (List.replicate 1048577 'a')

theorem dumpsF_bigResp :
    dumpsF 3 bigResp =
      ('\x7b' :: (('"' :: 's' :: 'u' :: 'c' :: 'c' :: 'e' :: 's' :: 's' :: '"' :: ':' :: ' ' ::
          'f' :: 'a' :: 'l' :: 's' :: 'e' :: []) ++ ',' :: ' ' ::
        (('"' :: 'e' :: 'r' :: 'r' :: 'o' :: 'r' :: '"' :: ':' :: ' ' :: '"' :: []) ++
          (escapeList (List.replicate 1048577 'a') ++ ['"'])))) ++ ['\x7d'] := rfl

theorem bigShape_len (R : List Char) :
    (('\x7b' :: (('"' :: 's' :: 'u' :: 'c' :: 'c' :: 'e' :: 's' :: 's' :: '"' :: ':' :: ' ' ::
          'f' :: 'a' :: 'l' :: 's' :: 'e' :: []) ++ ',' :: ' ' ::
        (('"' :: 'e' :: 'r' :: 'r' :: 'o' :: 'r' :: '"' :: ':' :: ' ' :: '"' :: []) ++
          (R ++ ['"'])))) ++ ['\x7d'] : List Char).length = R.length + 31 := by
  simp only [List.length_append, List.length_cons, List.length_nil]
  omega

theorem bigResp_dumps_len : (dumpsF 3 bigResp).length = 1048608 := by
  rw [dumpsF_bigResp, escapeList_replicate, bigShape_len, List.length_replicate]

theorem bigResp_bytes_len : (utf8Encode (dumpsF 3 bigResp)).length = 1048608 :=
  (utf8Encode_ascii_length _ (dumpsF_ascii 3 bigResp)).trans bigResp_dumps_len

/-- C8 (counterexample): the round trip is not unconditional.  Encoding the
(well-formed, JSON-serializable) oversized error response succeeds on the
write side, but decoding the resulting stream rejects the frame at the one
megabyte cap with a too-large error instead of returning the value. -/
theorem claim_C8_counterexample :
    read_message (write_message 3 bigResp writeOk) =
      (.readError (strL "Message too large: 1048608 bytes"),
        utf8Encode (dumpsF 3 bigResp)) ∧
    (read_message (write_message 3 bigResp writeOk)).1 ≠ ReadResult.ok bigResp := by
  have h32 : (utf8Encode (dumpsF 3 bigResp)).length < 4294967296 := by
    rw [bigResp_bytes_len]
    omega
  have h1 : read_message (write_message 3 bigResp writeOk) =
      (.readError (strL "Message too large: 1048608 bytes"),
        utf8Encode (dumpsF 3 bigResp)) := by
    rw [write_message_writeOk 3 bigResp h32, bigResp_bytes_len]
    rw [show packLE 1048608 ++ utf8Encode (dumpsF 3 bigResp) =
      32 :: 0 :: 16 :: 0 :: utf8Encode (dumpsF 3 bigResp) from rfl]
    rw [read_message_toolarge 32 0 16 0 _ (by decide)]
    rw [show strL "Message too large: " ++ strL (toString (unpackLE 32 0 16 0)) ++
      strL " bytes" = strL "Message too large: 1048608 bytes" from by decide]
  refine ⟨h1, ?_⟩
  rw [h1]
  intro hc
  exact ReadResult.noConfusion hc

/-- C8 (amended): for every response value that is well formed at some
depth fuel and whose UTF-8 JSON encoding fits the one megabyte cap,
encoding with the framing codec and decoding the resulting byte stream
with the same codec yields the original value with the frame fully
consumed. -/
theorem claim_C8 (fuel : Nat) (v : Json) (rest : List Nat)
    (hwf : jwf fuel v = true)
    (hsize : (utf8Encode (dumpsF fuel v)).length ≤ 1048576) :
    read_message (write_message fuel v writeOk ++ rest) = (.ok v, rest) :=
  read_message_encoded fuel v rest hwf hsize

/-- C8 (witness): the success response round trips through the codec. -/
theorem claim_C8_witness :
    read_message (write_message 2 successResp writeOk ++ []) = (.ok successResp, []) :=
  claim_C8 2 successResp [] (by rfl) (by decide)
